import Mathlib

/-!
# Verification of the Dots and Squares game engine

Shallow embedding of the game-state machine, move-legality/scoring engine
and opponent decision procedure of the `dots_and_squares` repository
(`src/index.js`, with the older variant `src/unnamed/part_000` where the
two variants differ), together with proofs of the spec's claims.

Conventions of the embedding:
* JS arrays of arrays become `List (List _)`; reads go through `List.getD`
  with the JS-falsy default (`false` for edge matrices, `none` for the
  owner matrix), writes through `List.set` (a no-op out of range, which is
  only ever exercised after the source's own bounds checks, as in the JS).
* Move coordinates are `Int` (the JS code compares them with `<`/`>`
  against the grid dimensions before any array access).
* The mutable module-level `gameState` becomes explicit state passing:
  each source function takes and returns a `GameState`.
* `Math.random()`-driven choices take an extra `Nat` parameter `rand`;
  the chosen index is `rand % length`, covering every index the JS
  `Math.floor(Math.random() * length)` can produce.
* The external Gemini call is represented by an `Option Move` parameter
  (`none` = transport/parse failure or missing API key); everything the
  source does after `JSON.parse(response.text)` is embedded faithfully.
-/

namespace DotsAndSquares

/-- The two player identities, `'PLAYER_1'` (human) and `'PLAYER_2'` (AI). -/
inductive Player where
  | P1 : Player
  | P2 : Player
deriving DecidableEq, Repr

open Player

/-- The ternary `currentPlayer === 'PLAYER_1' ? 'PLAYER_2' : 'PLAYER_1'`. -/
def otherPlayer : Player → Player
  | P1 => P2
  | P2 => P1

/-- The module-level `gameState` object of `src/index.js`. -/
structure GameState where
  rows : Nat
  cols : Nat
  horizontalLines : List (List Bool)
  verticalLines : List (List Bool)
  squares : List (List (Option Player))
  currentPlayer : Player
  scoreP1 : Nat
  scoreP2 : Nat
  isGameOver : Bool
  moveCount : Nat
deriving DecidableEq, Repr

/-- Function `createInitialState(rows, cols)` from `src/index.js`. -/
def createInitialState (rows cols : Nat) : GameState :=
  { rows := rows
    cols := cols
    horizontalLines := List.replicate (rows + 1) (List.replicate cols false)
    verticalLines := List.replicate rows (List.replicate (cols + 1) false)
    squares := List.replicate rows (List.replicate cols none)
    currentPlayer := P1
    scoreP1 := 0
    scoreP2 := 0
    isGameOver := false
    moveCount := 0 }

/-- Read `m[r][c]` in a boolean matrix (JS `undefined` is falsy, hence the
`false` default; the source only reads in range after its bounds checks). -/
def getM (m : List (List Bool)) (r c : Nat) : Bool :=
  (m.getD r []).getD c false

/-- Read `squares[r][c]` (JS `null` becomes `none`). -/
def getSq (m : List (List (Option Player))) (r c : Nat) : Option Player :=
  (m.getD r []).getD c none

/-- Write `m[r][c] = v` in a matrix. -/
def setM2 {α : Type} (m : List (List α)) (r c : Nat) (v : α) : List (List α) :=
  m.set r ((m.getD r []).set c v)

/-- Read of `gameState.scores[p]`. -/
def score (s : GameState) (p : Player) : Nat :=
  match p with
  | P1 => s.scoreP1
  | P2 => s.scoreP2

/-- Update `gameState.scores[p] += 1`. -/
def addScore (s : GameState) (p : Player) : GameState :=
  match p with
  | P1 => { s with scoreP1 := s.scoreP1 + 1 }
  | P2 => { s with scoreP2 := s.scoreP2 + 1 }

/-- Function `checkSquareCompletion(r, c)` from `src/index.js`: bounds check, the
square must be unowned, and all four bounding edges must be true. -/
def checkSquareCompletion (s : GameState) (r c : Int) : Bool :=
  if r < 0 || (s.rows : Int) ≤ r || c < 0 || (s.cols : Int) ≤ c then false
  else if (getSq s.squares r.toNat c.toNat).isSome then false
  else
    getM s.horizontalLines r.toNat c.toNat &&
    getM s.horizontalLines (r.toNat + 1) c.toNat &&
    getM s.verticalLines r.toNat c.toNat &&
    getM s.verticalLines r.toNat (c.toNat + 1)

/-- Function `getSquareSideCount(r, c)` from `src/index.js`: a `-1` sentinel out of
range, else the number of the square's four bounding edges that are true. -/
def getSquareSideCount (s : GameState) (r c : Int) : Int :=
  if r < 0 || (s.rows : Int) ≤ r || c < 0 || (s.cols : Int) ≤ c then -1
  else
    (if getM s.horizontalLines r.toNat c.toNat then 1 else 0) +
    (if getM s.horizontalLines (r.toNat + 1) c.toNat then 1 else 0) +
    (if getM s.verticalLines r.toNat c.toNat then 1 else 0) +
    (if getM s.verticalLines r.toNat (c.toNat + 1) then 1 else 0)

/-- The `squaresToCheck` list of `handleMove`: the ≤2 squares adjacent to
the placed edge. -/
def squaresToCheck (isH : Bool) (r c : Int) : List (Int × Int) :=
  if isH then [(r - 1, c), (r, c)] else [(r, c - 1), (r, c)]

/-- Update `lines[r][c] = true; gameState.moveCount++` for the selected matrix. -/
def placeEdge (s : GameState) (isH : Bool) (r c : Int) : GameState :=
  if isH then
    { s with horizontalLines := setM2 s.horizontalLines r.toNat c.toNat true
             moveCount := s.moveCount + 1 }
  else
    { s with verticalLines := setM2 s.verticalLines r.toNat c.toNat true
             moveCount := s.moveCount + 1 }

/-- One iteration of the completion loop body: assign `currentPlayer` as
owner and increment that player's score. -/
def assignSquare (s : GameState) (r c : Int) : GameState :=
  addScore
    { s with squares := setM2 s.squares r.toNat c.toNat (some s.currentPlayer) }
    s.currentPlayer

/-- The completion loop of `handleMove` (`for (const [sqR, sqC] of
squaresToCheck)`); returns the updated state and `completedAny`. -/
def doCompletions : GameState → List (Int × Int) → GameState × Bool
  | s, [] => (s, false)
  | s, p :: rest =>
      if checkSquareCompletion s p.1 p.2 then
        ((doCompletions (assignSquare s p.1 p.2) rest).1, true)
      else doCompletions s rest

/-- Test `gameState.squares.every(row => row.every(sq => sq !== null))`. -/
def allOwned (m : List (List (Option Player))) : Bool :=
  m.all (fun row => row.all (fun sq => sq.isSome))

/-- Turn alternation and terminal-state recomputation at the end of
`handleMove`. -/
def finishMove (s : GameState) (completedAny : Bool) : GameState :=
  let s1 := if completedAny then s
            else { s with currentPlayer := otherPlayer s.currentPlayer }
  { s1 with isGameOver := allOwned s1.squares }

/-- The accepted-move path of `handleMove` (everything after the guards). -/
def handleMoveBody (s : GameState) (isH : Bool) (r c : Int) : GameState :=
  let s1 := placeEdge s isH r c
  let pr := doCompletions s1 (squaresToCheck isH r c)
  finishMove pr.1 pr.2

/-- The part of `handleMove` shared by both source variants: edge-type
dispatch, bounds/claimed checks, then the accepted-move path. -/
def handleMoveInner (s : GameState) (type : String) (r c : Int) : GameState :=
  if type == "h" then
    if r < 0 || (s.rows : Int) < r || c < 0 || (s.cols : Int) ≤ c ||
        getM s.horizontalLines r.toNat c.toNat then s
    else handleMoveBody s true r c
  else
    if r < 0 || (s.rows : Int) ≤ r || c < 0 || (s.cols : Int) < c ||
        getM s.verticalLines r.toNat c.toNat then s
    else handleMoveBody s false r c

/-- Function `handleMove(type, r, c)` from `src/index.js`; an early `return`
(rejection) leaves the state unchanged. -/
def handleMove (s : GameState) (type : String) (r c : Int) : GameState :=
  if s.isGameOver then s else handleMoveInner s type r c

/-- Function `handleMove(type, r, c)` from `src/unnamed/part_000`: identical except
for the concurrency guard `if (isAiThinking && gameState.currentPlayer ===
'PLAYER_1') return;`.  The module-level `isAiThinking` flag is passed
explicitly. -/
def handleMoveGuarded (s : GameState) (isAiThinking : Bool) (type : String)
    (r c : Int) : GameState :=
  if s.isGameOver then s
  else if isAiThinking && s.currentPlayer == P1 then s
  else handleMoveInner s type r c

/-- The move objects `{type: 'h'|'v', r, c}` exchanged with the AI layer. -/
structure Move where
  type : String
  r : Int
  c : Int
deriving DecidableEq, Repr

/-- The `moves` / `availableMoves` list built by `triggerAi` and
`fetchAiMove`: all horizontal then all vertical unclaimed edges, in the
source's loop order. -/
def allMoves (s : GameState) : List Move :=
  ((List.range (s.rows + 1)).flatMap (fun r =>
    (List.range s.cols).filterMap (fun c =>
      if getM s.horizontalLines r c then none
      else some ⟨"h", (r : Int), (c : Int)⟩))) ++
  ((List.range s.rows).flatMap (fun r =>
    (List.range (s.cols + 1)).filterMap (fun c =>
      if getM s.verticalLines r c then none
      else some ⟨"v", (r : Int), (c : Int)⟩)))

/-- The `squares` list computed for a candidate move inside `triggerAi`
(same expression as `squaresToCheck` in `handleMove`). -/
def movSquares (m : Move) : List (Int × Int) :=
  squaresToCheck (m.type == "h") m.r m.c

/-- The tier-1 test of the local fallback: some adjacent square has
exactly 3 sides (`getSquareSideCount(sqR, sqC) === 3`). -/
def completesPred (s : GameState) (m : Move) : Bool :=
  (movSquares m).any (fun p => getSquareSideCount s p.1 p.2 == 3)

/-- The tier-2 safety test of the local fallback: every adjacent square
has fewer than 2 sides (`getSquareSideCount(sqR, sqC) < 2`). -/
def safePred (s : GameState) (m : Move) : Bool :=
  (movSquares m).all (fun p => getSquareSideCount s p.1 p.2 < 2)

/-- The local strategic fallback of `triggerAi` in `src/index.js`:
first move completing a square if any, else a random safe move, else
`moves[0]` (which is JS `undefined`, i.e. no move, on an empty list).
`rand` feeds the `Math.random()` index choice. -/
def chooseLocalMove (s : GameState) (rand : Nat) : Option Move :=
  let moves := allMoves s
  match moves.find? (completesPred s) with
  | some m => some m
  | none =>
      let safeMoves := moves.filter (safePred s)
      if 0 < safeMoves.length then
        some (safeMoves.getD (rand % safeMoves.length) ⟨"h", 0, 0⟩)
      else moves.head?

/-- The legality validation of the oracle's proposed move, `if
(lines[move.r] && lines[move.r][move.c] === false)` (identical in both
source variants): the target row must exist, the target cell must exist
and hold `false`. -/
def oracleValidate (s : GameState) (m : Move) : Bool :=
  let lines := if m.type == "h" then s.horizontalLines else s.verticalLines
  if m.r < 0 then false
  else
    match lines.get? m.r.toNat with
    | none => false
    | some row =>
        if m.c < 0 then false
        else
          match row.get? m.c.toNat with
          | none => false
          | some b => !b

/-- Function `fetchAiMove` of `src/index.js`, after the remote call: `oracleReply`
is the parsed response (`none` for a missing API key, an empty board, or
a transport/parse error, all of which `return null`).  A reply failing
validation also yields `null`. -/
def fetchAiMove (s : GameState) (oracleReply : Option Move) : Option Move :=
  match oracleReply with
  | none => none
  | some m => if oracleValidate s m then some m else none

/-- The move selection of `triggerAi` in `src/index.js`: the validated
oracle move if any, else the local strategic fallback. -/
def triggerAiChoose (s : GameState) (oracleReply : Option Move) (rand : Nat) :
    Option Move :=
  match fetchAiMove s oracleReply with
  | some m => some m
  | none => chooseLocalMove s rand

/-- Function `fetchAiMove` of `src/unnamed/part_000`, after the remote call: an
empty board returns `null`, a valid reply is returned, but an INVALID
reply is replaced by `availableMoves[0]` instead of failing. -/
def fetchAiMoveP0 (s : GameState) (oracleReply : Move) : Option Move :=
  let availableMoves := allMoves s
  if availableMoves.length = 0 then none
  else if oracleValidate s oracleReply then some oracleReply
  else availableMoves.head?

/-- The spec's horizontal-edge bounds `0 ≤ r ≤ rows, 0 ≤ c < cols`. -/
def hBoundsOK (s : GameState) (r c : Int) : Prop :=
  0 ≤ r ∧ r ≤ (s.rows : Int) ∧ 0 ≤ c ∧ c < (s.cols : Int)

/-- The spec's vertical-edge bounds `0 ≤ r < rows, 0 ≤ c ≤ cols`. -/
def vBoundsOK (s : GameState) (r c : Int) : Prop :=
  0 ≤ r ∧ r < (s.rows : Int) ∧ 0 ≤ c ∧ c ≤ (s.cols : Int)

/-- The bounds appropriate to the move's edge type. -/
def edgeInBounds (s : GameState) (type : String) (r c : Int) : Prop :=
  if type == "h" then hBoundsOK s r c else vBoundsOK s r c

/-- Whether the targeted edge is already claimed. -/
def edgeClaimed (s : GameState) (type : String) (r c : Int) : Bool :=
  if type == "h" then getM s.horizontalLines r.toNat c.toNat
  else getM s.verticalLines r.toNat c.toNat

instance (s : GameState) (r c : Int) : Decidable (hBoundsOK s r c) := by
  unfold hBoundsOK; infer_instance

instance (s : GameState) (r c : Int) : Decidable (vBoundsOK s r c) := by
  unfold vBoundsOK; infer_instance

instance (s : GameState) (type : String) (r c : Int) :
    Decidable (edgeInBounds s type r c) := by
  unfold edgeInBounds; infer_instance

/-- A move the engine accepts: session not over, coordinates in bounds,
edge unclaimed. -/
def moveAccepted (s : GameState) (type : String) (r c : Int) : Prop :=
  s.isGameOver = false ∧ edgeInBounds s type r c ∧
    edgeClaimed s type r c = false

instance (s : GameState) (type : String) (r c : Int) :
    Decidable (moveAccepted s type r c) := by
  unfold moveAccepted; infer_instance

/-- The squares an accepted move completes: the adjacent squares passing
`checkSquareCompletion` once the edge is placed. -/
def movesCompleted (s : GameState) (type : String) (r c : Int) :
    List (Int × Int) :=
  (squaresToCheck (type == "h") r c).filter
    (fun p => checkSquareCompletion (placeEdge s (type == "h") r c) p.1 p.2)

/-- Owner assignment and scoring over a list of completed squares. -/
def assignAll (s : GameState) (L : List (Int × Int)) : GameState :=
  L.foldl (fun st p => assignSquare st p.1 p.2) s

/-- Well-formedness of a session's matrices: the shapes stated in the
spec's data model (`(rows+1) × cols`, `rows × (cols+1)`, `rows × cols`). -/
def WF (s : GameState) : Prop :=
  s.horizontalLines.length = s.rows + 1 ∧
  (∀ row ∈ s.horizontalLines, row.length = s.cols) ∧
  s.verticalLines.length = s.rows ∧
  (∀ row ∈ s.verticalLines, row.length = s.cols + 1) ∧
  s.squares.length = s.rows ∧
  (∀ row ∈ s.squares, row.length = s.cols)

instance (s : GameState) : Decidable (WF s) := by
  unfold WF; infer_instance

/-- In-range square coordinates, as tested first by
`checkSquareCompletion` and `getSquareSideCount`. -/
def sqInBounds (s : GameState) (x y : Int) : Prop :=
  0 ≤ x ∧ x < (s.rows : Int) ∧ 0 ≤ y ∧ y < (s.cols : Int)

instance (s : GameState) (x y : Int) : Decidable (sqInBounds s x y) := by
  unfold sqInBounds; infer_instance

/-- Number of squares owned by player `p`. -/
def countOwned (p : Player) (m : List (List (Option Player))) : Nat :=
  (m.map (fun row => row.countP (fun o => o == some p))).sum

/-- Number of squares with a non-null owner. -/
def countOwnedTotal (m : List (List (Option Player))) : Nat :=
  (m.map (fun row => row.countP (fun o => o.isSome))).sum

/-- The sessions reachable from a freshly created one through the move
engine (rejected calls return the same session, so they are covered). -/
inductive Reachable : GameState → Prop where
  | init : ∀ rows cols, Reachable (createInitialState rows cols)
  | step : ∀ (s : GameState) (type : String) (r c : Int),
      Reachable s → Reachable (handleMove s type r c)

/-! ## Basic lemmas about matrix reads and writes -/

theorem getD_set_of_ne {α : Type} (l : List α) (i j : Nat) (v d : α)
    (h : i ≠ j) : (l.set i v).getD j d = l.getD j d := by
  induction l generalizing i j with
  | nil => simp
  | cons a t ih =>
      cases i with
      | zero => cases j with
        | zero => exact absurd rfl h
        | succ j => simp [List.set, List.getD]
      | succ i => cases j with
        | zero => simp [List.set, List.getD]
        | succ j =>
            simp only [List.set, List.getD_cons_succ]
            exact ih i j (by omega)

theorem getD_set_self {α : Type} (l : List α) (i : Nat) (v d : α)
    (h : i < l.length) : (l.set i v).getD i d = v := by
  induction l generalizing i with
  | nil => simp at h
  | cons a t ih =>
      cases i with
      | zero => simp [List.set]
      | succ i =>
          simp only [List.set, List.getD_cons_succ]
          exact ih i (by simpa using h)

theorem getD_set_of_length_le {α : Type} (l : List α) (i : Nat) (v : α)
    (h : l.length ≤ i) : l.set i v = l := by
  induction l generalizing i with
  | nil => simp
  | cons a t ih =>
      cases i with
      | zero => simp at h
      | succ i => simp only [List.set]; rw [ih i (by simpa using h)]

theorem read2_setM2_ne {α : Type} (d : α) (m : List (List α)) (a b x y : Nat)
    (v : α) (h : ¬(x = a ∧ y = b)) :
    ((setM2 m a b v).getD x []).getD y d = (m.getD x []).getD y d := by
  unfold setM2
  by_cases hx : x = a
  · subst hx
    have hy : y ≠ b := fun hy => h ⟨rfl, hy⟩
    by_cases hl : x < m.length
    · rw [getD_set_self m x _ [] hl, getD_set_of_ne _ b y _ _ (fun hh => hy hh.symm)]
    · rw [getD_set_of_length_le m x _ (by omega)]
  · rw [getD_set_of_ne m a x _ [] (fun hh => hx hh.symm)]

theorem read2_setM2_self {α : Type} (d : α) (m : List (List α)) (a b : Nat)
    (v : α) (h1 : a < m.length) (h2 : b < (m.getD a []).length) :
    ((setM2 m a b v).getD a []).getD b d = v := by
  unfold setM2
  rw [getD_set_self m a _ [] h1, getD_set_self _ b v d h2]

theorem getM_setM2_ne (m : List (List Bool)) (a b x y : Nat) (v : Bool)
    (h : ¬(x = a ∧ y = b)) : getM (setM2 m a b v) x y = getM m x y :=
  read2_setM2_ne false m a b x y v h

theorem getM_setM2_self (m : List (List Bool)) (a b : Nat) (v : Bool)
    (h1 : a < m.length) (h2 : b < (m.getD a []).length) :
    getM (setM2 m a b v) a b = v :=
  read2_setM2_self false m a b v h1 h2

theorem getSq_setM2_ne (m : List (List (Option Player))) (a b x y : Nat)
    (v : Option Player) (h : ¬(x = a ∧ y = b)) :
    getSq (setM2 m a b v) x y = getSq m x y :=
  read2_setM2_ne none m a b x y v h

theorem getSq_setM2_self (m : List (List (Option Player))) (a b : Nat)
    (v : Option Player) (h1 : a < m.length) (h2 : b < (m.getD a []).length) :
    getSq (setM2 m a b v) a b = v :=
  read2_setM2_self none m a b v h1 h2

/-! ## Field bookkeeping of the accepted-move path -/

theorem assignSquare_fields (s : GameState) (r c : Int) :
    (assignSquare s r c).rows = s.rows ∧
    (assignSquare s r c).cols = s.cols ∧
    (assignSquare s r c).horizontalLines = s.horizontalLines ∧
    (assignSquare s r c).verticalLines = s.verticalLines ∧
    (assignSquare s r c).currentPlayer = s.currentPlayer ∧
    (assignSquare s r c).isGameOver = s.isGameOver ∧
    (assignSquare s r c).moveCount = s.moveCount := by
  unfold assignSquare addScore
  cases s.currentPlayer <;> simp

theorem doCompletions_moveCount (L : List (Int × Int)) (s : GameState) :
    (doCompletions s L).1.moveCount = s.moveCount := by
  induction L generalizing s with
  | nil => rfl
  | cons p rest ih =>
      unfold doCompletions
      by_cases h : checkSquareCompletion s p.1 p.2
      · simp only [h, if_pos]
        rw [ih, (assignSquare_fields s p.1 p.2).2.2.2.2.2.2]
      · simp only [h]
        simpa using ih s

theorem finishMove_moveCount (s : GameState) (b : Bool) :
    (finishMove s b).moveCount = s.moveCount := by
  unfold finishMove; cases b <;> simp

theorem handleMoveBody_moveCount (s : GameState) (isH : Bool) (r c : Int) :
    (handleMoveBody s isH r c).moveCount = s.moveCount + 1 := by
  unfold handleMoveBody
  rw [finishMove_moveCount, doCompletions_moveCount]
  unfold placeEdge
  cases isH <;> simp

/-! ## Claim C1: rejection condition of the move engine -/

theorem hGuard_iff (s : GameState) (r c : Int) :
    (r < 0 || (s.rows : Int) < r || c < 0 || (s.cols : Int) ≤ c ||
      getM s.horizontalLines r.toNat c.toNat) = true ↔
      (¬ hBoundsOK s r c ∨ getM s.horizontalLines r.toNat c.toNat = true) := by
  by_cases hP : getM s.horizontalLines r.toNat c.toNat = true
  · simp [hP, hBoundsOK]
  · simp [hP, hBoundsOK]
    omega

theorem vGuard_iff (s : GameState) (r c : Int) :
    (r < 0 || (s.rows : Int) ≤ r || c < 0 || (s.cols : Int) < c ||
      getM s.verticalLines r.toNat c.toNat) = true ↔
      (¬ vBoundsOK s r c ∨ getM s.verticalLines r.toNat c.toNat = true) := by
  by_cases hP : getM s.verticalLines r.toNat c.toNat = true
  · simp [hP, vBoundsOK]
  · simp [hP, vBoundsOK]
    omega

theorem handleMoveBody_ne (s : GameState) (isH : Bool) (r c : Int) :
    handleMoveBody s isH r c ≠ s := by
  intro heq
  have := congrArg GameState.moveCount heq
  rw [handleMoveBody_moveCount] at this
  omega

theorem handleMove_eq_self_iff (s : GameState) (type : String) (r c : Int) :
    handleMove s type r c = s ↔
      s.isGameOver = true ∨ ¬ edgeInBounds s type r c ∨
        edgeClaimed s type r c = true := by
  unfold handleMove handleMoveInner
  cases hover : s.isGameOver with
  | true => simp [hover]
  | false =>
      simp only [Bool.false_eq_true, if_false, hover]
      unfold edgeInBounds edgeClaimed
      cases hty : (type == "h") with
      | true =>
          simp only [if_pos, hty, if_true]
          by_cases hg : (r < 0 || (s.rows : Int) < r || c < 0 ||
              (s.cols : Int) ≤ c || getM s.horizontalLines r.toNat c.toNat) = true
          · rw [if_pos hg]
            simp only [true_iff, eq_self_iff_true]
            exact Or.inr ((hGuard_iff s r c).mp hg)
          · rw [if_neg hg]
            constructor
            · intro heq; exact absurd heq (handleMoveBody_ne s true r c)
            · intro hdisj
              rcases hdisj with h | h | h
              · simp at h
              · exact absurd ((hGuard_iff s r c).mpr (Or.inl h)) hg
              · exact absurd ((hGuard_iff s r c).mpr (Or.inr h)) hg
      | false =>
          simp only [Bool.false_eq_true, if_false, hty]
          by_cases hg : (r < 0 || (s.rows : Int) ≤ r || c < 0 ||
              (s.cols : Int) < c || getM s.verticalLines r.toNat c.toNat) = true
          · rw [if_pos hg]
            simp only [true_iff, eq_self_iff_true]
            exact Or.inr ((vGuard_iff s r c).mp hg)
          · rw [if_neg hg]
            constructor
            · intro heq; exact absurd heq (handleMoveBody_ne s false r c)
            · intro hdisj
              rcases hdisj with h | h | h
              · simp at h
              · exact absurd ((vGuard_iff s r c).mpr (Or.inl h)) hg
              · exact absurd ((vGuard_iff s r c).mpr (Or.inr h)) hg

/-! ## Characterization of the accepted-move path -/

theorem assignSquare_squares (s : GameState) (r c : Int) :
    (assignSquare s r c).squares =
      setM2 s.squares r.toNat c.toNat (some s.currentPlayer) := by
  unfold assignSquare addScore
  cases s.currentPlayer <;> simp

theorem checkSquareCompletion_bounds (s : GameState) (r c : Int)
    (h : checkSquareCompletion s r c = true) :
    0 ≤ r ∧ r < (s.rows : Int) ∧ 0 ≤ c ∧ c < (s.cols : Int) := by
  unfold checkSquareCompletion at h
  by_cases hb : (r < 0 || (s.rows : Int) ≤ r || c < 0 || (s.cols : Int) ≤ c) = true
  · rw [if_pos hb] at h; exact absurd h (by simp)
  · simp only [Bool.or_eq_true, decide_eq_true_eq, not_or] at hb; omega

theorem checkSquareCompletion_assignSquare (s : GameState) (a b x y : Int)
    (h : ¬(a.toNat = x.toNat ∧ b.toNat = y.toNat)) :
    checkSquareCompletion (assignSquare s a b) x y =
      checkSquareCompletion s x y := by
  have hf := assignSquare_fields s a b
  unfold checkSquareCompletion
  rw [hf.1, hf.2.1, hf.2.2.1, hf.2.2.2.1, assignSquare_squares,
    getSq_setM2_ne _ _ _ _ _ _ (fun hh => h ⟨hh.1.symm, hh.2.symm⟩)]

theorem doCompletions_pair (t : GameState) (p1 p2 : Int × Int)
    (hind : checkSquareCompletion t p1.1 p1.2 = true →
      ¬(p1.1.toNat = p2.1.toNat ∧ p1.2.toNat = p2.2.toNat)) :
    doCompletions t [p1, p2] =
      (assignAll t
        ([p1, p2].filter (fun p => checkSquareCompletion t p.1 p.2)),
       !([p1, p2].filter
          (fun p => checkSquareCompletion t p.1 p.2)).isEmpty) := by
  by_cases h1 : checkSquareCompletion t p1.1 p1.2 = true
  · have h2eq : checkSquareCompletion (assignSquare t p1.1 p1.2) p2.1 p2.2 =
        checkSquareCompletion t p2.1 p2.2 :=
      checkSquareCompletion_assignSquare t p1.1 p1.2 p2.1 p2.2 (hind h1)
    by_cases h2 : checkSquareCompletion t p2.1 p2.2 = true
    · simp [doCompletions, assignAll, h1, h2, h2eq]
    · simp [doCompletions, assignAll, h1, h2, h2eq]
  · by_cases h2 : checkSquareCompletion t p2.1 p2.2 = true
    · simp [doCompletions, assignAll, h1, h2]
    · simp [doCompletions, assignAll, h1, h2]

theorem handleMoveBody_eq (s : GameState) (isH : Bool) (r c : Int) :
    handleMoveBody s isH r c =
      finishMove
        (assignAll (placeEdge s isH r c)
          ((squaresToCheck isH r c).filter
            (fun p => checkSquareCompletion (placeEdge s isH r c) p.1 p.2)))
        (!((squaresToCheck isH r c).filter
            (fun p => checkSquareCompletion (placeEdge s isH r c) p.1 p.2)).isEmpty) := by
  cases isH with
  | true =>
      show finishMove (doCompletions (placeEdge s true r c) [(r - 1, c), (r, c)]).1
        (doCompletions (placeEdge s true r c) [(r - 1, c), (r, c)]).2 = _
      rw [doCompletions_pair]
      · rfl
      · intro h1
        have hb := checkSquareCompletion_bounds _ _ _ h1
        dsimp only at hb ⊢
        omega
  | false =>
      show finishMove (doCompletions (placeEdge s false r c) [(r, c - 1), (r, c)]).1
        (doCompletions (placeEdge s false r c) [(r, c - 1), (r, c)]).2 = _
      rw [doCompletions_pair]
      · rfl
      · intro h1
        have hb := checkSquareCompletion_bounds _ _ _ h1
        dsimp only at hb ⊢
        omega

theorem handleMove_accepted_eq (s : GameState) (type : String) (r c : Int)
    (h : moveAccepted s type r c) :
    handleMove s type r c =
      finishMove
        (assignAll (placeEdge s (type == "h") r c) (movesCompleted s type r c))
        (!(movesCompleted s type r c).isEmpty) := by
  obtain ⟨hover, hin, hcl⟩ := h
  unfold handleMove handleMoveInner
  rw [hover]
  simp only [Bool.false_eq_true, if_false]
  unfold edgeInBounds at hin
  unfold edgeClaimed at hcl
  unfold movesCompleted
  cases hty : (type == "h") with
  | true =>
      rw [hty] at hin hcl
      simp only [if_true] at hin hcl
      have hg : (r < 0 || (s.rows : Int) < r || c < 0 || (s.cols : Int) ≤ c ||
          getM s.horizontalLines r.toNat c.toNat) ≠ true := by
        intro hg
        rcases (hGuard_iff s r c).mp hg with h' | h'
        · exact h' hin
        · rw [hcl] at h'; exact absurd h' (by simp)
      rw [if_pos rfl, if_neg hg]
      exact handleMoveBody_eq s true r c
  | false =>
      rw [hty] at hin hcl
      simp only [Bool.false_eq_true, if_false] at hin hcl
      have hg : (r < 0 || (s.rows : Int) ≤ r || c < 0 || (s.cols : Int) < c ||
          getM s.verticalLines r.toNat c.toNat) ≠ true := by
        intro hg
        rcases (vGuard_iff s r c).mp hg with h' | h'
        · exact h' hin
        · rw [hcl] at h'; exact absurd h' (by simp)
      rw [if_neg (by simp [hty]), if_neg hg]
      exact handleMoveBody_eq s false r c

theorem otherPlayer_ne (p : Player) : otherPlayer p ≠ p := by
  cases p <;> simp [otherPlayer]

theorem placeEdge_fields (s : GameState) (isH : Bool) (r c : Int) :
    (placeEdge s isH r c).rows = s.rows ∧
    (placeEdge s isH r c).cols = s.cols ∧
    (placeEdge s isH r c).squares = s.squares ∧
    (placeEdge s isH r c).currentPlayer = s.currentPlayer ∧
    (placeEdge s isH r c).scoreP1 = s.scoreP1 ∧
    (placeEdge s isH r c).scoreP2 = s.scoreP2 ∧
    (placeEdge s isH r c).moveCount = s.moveCount + 1 := by
  unfold placeEdge; cases isH <;> simp

theorem assignAll_cons (t : GameState) (p : Int × Int) (L : List (Int × Int)) :
    assignAll t (p :: L) = assignAll (assignSquare t p.1 p.2) L := rfl

theorem assignAll_currentPlayer (L : List (Int × Int)) (t : GameState) :
    (assignAll t L).currentPlayer = t.currentPlayer := by
  induction L generalizing t with
  | nil => rfl
  | cons p L ih =>
      rw [assignAll_cons, ih, (assignSquare_fields t p.1 p.2).2.2.2.2.1]

theorem assignAll_statics (L : List (Int × Int)) (t : GameState) :
    (assignAll t L).rows = t.rows ∧
    (assignAll t L).cols = t.cols ∧
    (assignAll t L).horizontalLines = t.horizontalLines ∧
    (assignAll t L).verticalLines = t.verticalLines ∧
    (assignAll t L).moveCount = t.moveCount := by
  induction L generalizing t with
  | nil => exact ⟨rfl, rfl, rfl, rfl, rfl⟩
  | cons p L ih =>
      have hf := assignSquare_fields t p.1 p.2
      have ih' := ih (assignSquare t p.1 p.2)
      rw [assignAll_cons]
      exact ⟨ih'.1.trans hf.1, ih'.2.1.trans hf.2.1,
        ih'.2.2.1.trans hf.2.2.1, ih'.2.2.2.1.trans hf.2.2.2.1,
        ih'.2.2.2.2.trans hf.2.2.2.2.2.2⟩

theorem assignSquare_score (t : GameState) (r c : Int) (q : Player) :
    score (assignSquare t r c) q =
      score t q + (if q = t.currentPlayer then 1 else 0) := by
  unfold assignSquare addScore
  cases hc : t.currentPlayer <;> cases q <;> simp [score]

theorem assignAll_score (L : List (Int × Int)) (t : GameState) (q : Player) :
    score (assignAll t L) q =
      score t q + (if q = t.currentPlayer then L.length else 0) := by
  induction L generalizing t with
  | nil => simp [assignAll]
  | cons p L ih =>
      rw [assignAll_cons, ih, assignSquare_score,
        (assignSquare_fields t p.1 p.2).2.2.2.2.1]
      by_cases hq : q = t.currentPlayer
      · simp [hq, List.length_cons]
        omega
      · simp [hq]

theorem finishMove_fields (s : GameState) (b : Bool) :
    (finishMove s b).rows = s.rows ∧
    (finishMove s b).cols = s.cols ∧
    (finishMove s b).horizontalLines = s.horizontalLines ∧
    (finishMove s b).verticalLines = s.verticalLines ∧
    (finishMove s b).squares = s.squares ∧
    (finishMove s b).scoreP1 = s.scoreP1 ∧
    (finishMove s b).scoreP2 = s.scoreP2 ∧
    (finishMove s b).currentPlayer =
      (if b then s.currentPlayer else otherPlayer s.currentPlayer) ∧
    (finishMove s b).isGameOver = allOwned s.squares := by
  unfold finishMove; cases b <;> simp

/-! ## Claim C2: turn alternation -/

/-- C2: after an accepted move the turn passes to the other player exactly
when the move completed no square; completing at least one square retains
the turn. -/
theorem handleMove_turn_alternation (s : GameState) (type : String)
    (r c : Int) (h : moveAccepted s type r c) :
    ((handleMove s type r c).currentPlayer = otherPlayer s.currentPlayer ↔
      movesCompleted s type r c = []) ∧
    (movesCompleted s type r c ≠ [] →
      (handleMove s type r c).currentPlayer = s.currentPlayer) := by
  rw [handleMove_accepted_eq s type r c h]
  have hfin := (finishMove_fields
    (assignAll (placeEdge s (type == "h") r c) (movesCompleted s type r c))
    (!(movesCompleted s type r c).isEmpty)).2.2.2.2.2.2.2.1
  rw [hfin, assignAll_currentPlayer,
    (placeEdge_fields s (type == "h") r c).2.2.2.1]
  cases hc : movesCompleted s type r c with
  | nil => simp
  | cons p L =>
      simp only [List.isEmpty_cons, Bool.not_false, if_true]
      constructor
      · constructor
        · intro hp; exact absurd hp.symm (otherPlayer_ne s.currentPlayer)
        · intro hp; simp at hp
      · intro hne; trivial

/-- Witness for C2 at a concrete accepted move (the first move on an
empty 2×2 board completes nothing, so the turn passes). -/
theorem handleMove_turn_alternation_witness :
    moveAccepted (createInitialState 2 2) "h" 0 0 ∧
    (((handleMove (createInitialState 2 2) "h" 0 0).currentPlayer =
        otherPlayer (createInitialState 2 2).currentPlayer) ↔
      movesCompleted (createInitialState 2 2) "h" 0 0 = []) :=
  ⟨by decide,
   (handleMove_turn_alternation (createInitialState 2 2) "h" 0 0 (by decide)).1⟩

/-! ## Shape invariants of the grid matrices -/

theorem getD_row_len {α : Type} (m : List (List α)) (k a : Nat)
    (hall : ∀ row ∈ m, row.length = k) (ha : a < m.length) :
    (m.getD a []).length = k := by
  rw [List.getD_eq_getElem m [] ha]
  exact hall _ (List.getElem_mem ha)

theorem length_setM2 {α : Type} (m : List (List α)) (a b : Nat) (v : α) :
    (setM2 m a b v).length = m.length := by
  unfold setM2; exact List.length_set m a _

theorem rows_setM2 {α : Type} (m : List (List α)) (k a b : Nat) (v : α)
    (hall : ∀ row ∈ m, row.length = k) :
    ∀ row ∈ setM2 m a b v, row.length = k := by
  intro row hrow
  by_cases ha : a < m.length
  · rcases List.mem_or_eq_of_mem_set hrow with h | h
    · exact hall _ h
    · subst h
      rw [List.length_set]
      exact getD_row_len m k a hall ha
  · unfold setM2 at hrow
    rw [getD_set_of_length_le m a _ (by omega)] at hrow
    exact hall _ hrow

theorem WF_placeEdge (s : GameState) (isH : Bool) (r c : Int) (h : WF s) :
    WF (placeEdge s isH r c) := by
  obtain ⟨h1, h2, h3, h4, h5, h6⟩ := h
  unfold WF placeEdge
  cases isH with
  | true =>
      simp only [if_true]
      exact ⟨by rw [length_setM2]; exact h1, rows_setM2 _ _ _ _ _ h2,
        h3, h4, h5, h6⟩
  | false =>
      simp only [Bool.false_eq_true, if_false]
      exact ⟨h1, h2, by rw [length_setM2]; exact h3,
        rows_setM2 _ _ _ _ _ h4, h5, h6⟩

theorem WF_assignSquare (s : GameState) (r c : Int) (h : WF s) :
    WF (assignSquare s r c) := by
  obtain ⟨h1, h2, h3, h4, h5, h6⟩ := h
  have hf := assignSquare_fields s r c
  have hsq := assignSquare_squares s r c
  unfold WF
  rw [hf.1, hf.2.1, hf.2.2.1, hf.2.2.2.1, hsq]
  exact ⟨h1, h2, h3, h4, by rw [length_setM2]; exact h5, rows_setM2 _ _ _ _ _ h6⟩

theorem WF_assignAll (L : List (Int × Int)) (s : GameState) (h : WF s) :
    WF (assignAll s L) := by
  induction L generalizing s with
  | nil => exact h
  | cons p L ih => rw [assignAll_cons]; exact ih _ (WF_assignSquare s p.1 p.2 h)

theorem WF_finishMove (s : GameState) (b : Bool) (h : WF s) :
    WF (finishMove s b) := by
  obtain ⟨h1, h2, h3, h4, h5, h6⟩ := h
  have hf := finishMove_fields s b
  unfold WF
  rw [hf.1, hf.2.1, hf.2.2.1, hf.2.2.2.1, hf.2.2.2.2.1]
  exact ⟨h1, h2, h3, h4, h5, h6⟩

theorem WF_createInitialState (rows cols : Nat) :
    WF (createInitialState rows cols) := by
  unfold WF createInitialState
  refine ⟨by simp, ?_, by simp, ?_, by simp, ?_⟩ <;>
    intro row hrow <;> rw [List.eq_of_mem_replicate hrow] <;> simp

theorem WF_handleMove (s : GameState) (type : String) (r c : Int)
    (h : WF s) : WF (handleMove s type r c) := by
  by_cases hacc : moveAccepted s type r c
  · rw [handleMove_accepted_eq s type r c hacc]
    exact WF_finishMove _ _ (WF_assignAll _ _ (WF_placeEdge s _ r c h))
  · unfold handleMove handleMoveInner
    unfold moveAccepted at hacc
    by_cases hover : s.isGameOver = true
    · rw [if_pos hover]; exact h
    · rw [if_neg hover]
      have hover' : s.isGameOver = false := by
        cases hov : s.isGameOver
        · rfl
        · exact absurd hov hover
      cases hty : (type == "h") with
      | true =>
          rw [if_pos rfl]
          by_cases hg : (r < 0 || (s.rows : Int) < r || c < 0 ||
              (s.cols : Int) ≤ c || getM s.horizontalLines r.toNat c.toNat) = true
          · rw [if_pos hg]; exact h
          · exfalso
            apply hacc
            refine ⟨hover', ?_, ?_⟩
            · unfold edgeInBounds
              rw [hty, if_pos rfl]
              by_contra hb
              exact hg ((hGuard_iff s r c).mpr (Or.inl hb))
            · unfold edgeClaimed
              rw [hty, if_pos rfl]
              cases hcl : getM s.horizontalLines r.toNat c.toNat
              · rfl
              · exact absurd ((hGuard_iff s r c).mpr (Or.inr hcl)) hg
      | false =>
          rw [if_neg (by simp [hty])]
          by_cases hg : (r < 0 || (s.rows : Int) ≤ r || c < 0 ||
              (s.cols : Int) < c || getM s.verticalLines r.toNat c.toNat) = true
          · rw [if_pos hg]; exact h
          · exfalso
            apply hacc
            refine ⟨hover', ?_, ?_⟩
            · unfold edgeInBounds
              rw [hty]
              simp only [Bool.false_eq_true, if_false]
              by_contra hb
              exact hg ((vGuard_iff s r c).mpr (Or.inl hb))
            · unfold edgeClaimed
              rw [hty]
              simp only [Bool.false_eq_true, if_false]
              cases hcl : getM s.verticalLines r.toNat c.toNat
              · rfl
              · exact absurd ((vGuard_iff s r c).mpr (Or.inr hcl)) hg

/-! ## Edge counts around a placed edge -/

theorem placeEdge_true_lines (s : GameState) (r c : Int) :
    (placeEdge s true r c).horizontalLines =
      setM2 s.horizontalLines r.toNat c.toNat true ∧
    (placeEdge s true r c).verticalLines = s.verticalLines := by
  unfold placeEdge; simp

theorem placeEdge_false_lines (s : GameState) (r c : Int) :
    (placeEdge s false r c).horizontalLines = s.horizontalLines ∧
    (placeEdge s false r c).verticalLines =
      setM2 s.verticalLines r.toNat c.toNat true := by
  unfold placeEdge; simp

theorem ssc_expand (s : GameState) (x y : Int) (h : sqInBounds s x y) :
    getSquareSideCount s x y =
      (if getM s.horizontalLines x.toNat y.toNat then 1 else 0) +
      (if getM s.horizontalLines (x.toNat + 1) y.toNat then 1 else 0) +
      (if getM s.verticalLines x.toNat y.toNat then 1 else 0) +
      (if getM s.verticalLines x.toNat (y.toNat + 1) then 1 else 0) := by
  obtain ⟨h1, h2, h3, h4⟩ := h
  unfold getSquareSideCount
  rw [if_neg]
  simp only [Bool.or_eq_true, decide_eq_true_eq, not_or]
  omega

theorem ssc_out (s : GameState) (x y : Int) (h : ¬ sqInBounds s x y) :
    getSquareSideCount s x y = -1 := by
  unfold getSquareSideCount
  rw [if_pos]
  unfold sqInBounds at h
  simp only [Bool.or_eq_true, decide_eq_true_eq]
  omega

theorem sqInBounds_of_ssc_ne (s : GameState) (x y : Int)
    (h : getSquareSideCount s x y ≠ -1) : sqInBounds s x y := by
  by_contra hb
  exact h (ssc_out s x y hb)

theorem ssc_le_four (s : GameState) (x y : Int) :
    getSquareSideCount s x y ≤ 4 := by
  unfold getSquareSideCount
  split_ifs <;> omega

theorem sqInBounds_placeEdge (s : GameState) (isH : Bool) (r c x y : Int) :
    sqInBounds (placeEdge s isH r c) x y ↔ sqInBounds s x y := by
  unfold sqInBounds placeEdge
  cases isH <;> simp

/-- Placing an edge raises the side count of each in-range adjacent
square by exactly one (the placed edge was unclaimed). -/
theorem ssc_placeEdge_adjacent (s : GameState) (isH : Bool) (r c x y : Int)
    (hWF : WF s) (hp : (x, y) ∈ squaresToCheck isH r c)
    (hpb : sqInBounds s x y)
    (hcl : (if isH then getM s.horizontalLines r.toNat c.toNat
            else getM s.verticalLines r.toNat c.toNat) = false) :
    getSquareSideCount (placeEdge s isH r c) x y =
      getSquareSideCount s x y + 1 := by
  obtain ⟨w1, w2, w3, w4, w5, w6⟩ := hWF
  rw [ssc_expand _ _ _ ((sqInBounds_placeEdge s isH r c x y).mpr hpb),
    ssc_expand _ _ _ hpb]
  obtain ⟨hb1, hb2, hb3, hb4⟩ := hpb
  cases isH with
  | true =>
      simp only [if_true] at hcl
      obtain ⟨hl, vl⟩ := placeEdge_true_lines s r c
      rw [hl, vl]
      simp only [squaresToCheck, if_true, List.mem_cons, List.not_mem_nil,
        or_false, Prod.mk.injEq] at hp
      rcases hp with ⟨hx, hy⟩ | ⟨hx, hy⟩
      · rw [hx] at hb1 hb2
        rw [hy] at hb3 hb4
        rw [hx, hy]
        -- square (r-1, c): the placed edge is its bottom edge
        have e1 : (r - 1).toNat + 1 = r.toNat := by omega
        rw [e1]
        have hrlt : r.toNat < s.horizontalLines.length := by rw [w1]; omega
        rw [getM_setM2_self _ _ _ _ hrlt
          (by rw [getD_row_len _ s.cols _ w2 hrlt]; omega)]
        rw [getM_setM2_ne _ _ _ _ _ _ (fun hh => by omega)]
        rw [show getM s.horizontalLines r.toNat c.toNat = false from hcl]
        simp only [if_true, Bool.false_eq_true, if_false]
        ring
      · rw [hx] at hb1 hb2
        rw [hy] at hb3 hb4
        rw [hx, hy]
        -- square (r, c): the placed edge is its top edge
        have hrlt : r.toNat < s.horizontalLines.length := by rw [w1]; omega
        rw [getM_setM2_self _ _ _ _ hrlt
          (by rw [getD_row_len _ s.cols _ w2 hrlt]; omega)]
        rw [getM_setM2_ne _ _ _ _ _ _ (fun hh => by omega)]
        rw [show getM s.horizontalLines r.toNat c.toNat = false from hcl]
        simp only [if_true, Bool.false_eq_true, if_false]
        ring
  | false =>
      simp only [Bool.false_eq_true, if_false] at hcl
      obtain ⟨hl, vl⟩ := placeEdge_false_lines s r c
      rw [hl, vl]
      simp only [squaresToCheck, Bool.false_eq_true, if_false, List.mem_cons,
        List.not_mem_nil, or_false, Prod.mk.injEq] at hp
      rcases hp with ⟨hx, hy⟩ | ⟨hx, hy⟩
      · rw [hx] at hb1 hb2
        rw [hy] at hb3 hb4
        rw [hx, hy]
        -- square (r, c-1): the placed edge is its right edge
        have e1 : (c - 1).toNat + 1 = c.toNat := by omega
        rw [e1]
        have hrlt : r.toNat < s.verticalLines.length := by rw [w3]; omega
        rw [getM_setM2_self _ _ _ _ hrlt
          (by rw [getD_row_len _ (s.cols + 1) _ w4 hrlt]; omega)]
        rw [getM_setM2_ne _ _ _ _ _ _ (fun hh => by omega)]
        rw [show getM s.verticalLines r.toNat c.toNat = false from hcl]
        simp only [if_true, Bool.false_eq_true, if_false]
        ring
      · rw [hx] at hb1 hb2
        rw [hy] at hb3 hb4
        rw [hx, hy]
        -- square (r, c): the placed edge is its left edge
        have hrlt : r.toNat < s.verticalLines.length := by rw [w3]; omega
        rw [getM_setM2_self _ _ _ _ hrlt
          (by rw [getD_row_len _ (s.cols + 1) _ w4 hrlt]; omega)]
        rw [getM_setM2_ne _ _ _ _ _ _ (fun hh => by omega)]
        rw [show getM s.verticalLines r.toNat c.toNat = false from hcl]
        simp only [if_true, Bool.false_eq_true, if_false]
        ring

theorem check_out (s : GameState) (x y : Int) (h : ¬ sqInBounds s x y) :
    checkSquareCompletion s x y = false := by
  unfold checkSquareCompletion
  rw [if_pos]
  unfold sqInBounds at h
  simp only [Bool.or_eq_true, decide_eq_true_eq]
  omega

theorem check_iff_ssc4 (s : GameState) (x y : Int) (hin : sqInBounds s x y) :
    checkSquareCompletion s x y = true ↔
      getSq s.squares x.toNat y.toNat = none ∧
        getSquareSideCount s x y = 4 := by
  have hex := ssc_expand s x y hin
  unfold checkSquareCompletion
  rw [if_neg (by
    obtain ⟨h1, h2, h3, h4⟩ := hin
    simp only [Bool.or_eq_true, decide_eq_true_eq, not_or]
    omega)]
  rw [hex]
  cases ho : getSq s.squares x.toNat y.toNat with
  | some q => simp [ho]
  | none =>
      simp only [Option.isSome_none, Bool.false_eq_true, if_false, true_and]
      cases hA : getM s.horizontalLines x.toNat y.toNat <;>
        cases hB : getM s.horizontalLines (x.toNat + 1) y.toNat <;>
        cases hC : getM s.verticalLines x.toNat y.toNat <;>
        cases hD : getM s.verticalLines x.toNat (y.toNat + 1) <;>
        simp

/-- Once the edge of an accepted move is placed, an adjacent square
passes `checkSquareCompletion` exactly when it was unowned and at three
sides before the move. -/
theorem check_place_iff (s : GameState) (isH : Bool) (r c x y : Int)
    (hWF : WF s) (hp : (x, y) ∈ squaresToCheck isH r c)
    (hcl : (if isH then getM s.horizontalLines r.toNat c.toNat
            else getM s.verticalLines r.toNat c.toNat) = false) :
    checkSquareCompletion (placeEdge s isH r c) x y = true ↔
      (getSq s.squares x.toNat y.toNat = none ∧
        getSquareSideCount s x y = 3) := by
  by_cases hin : sqInBounds s x y
  · rw [check_iff_ssc4 _ x y ((sqInBounds_placeEdge s isH r c x y).mpr hin),
      ssc_placeEdge_adjacent s isH r c x y hWF hp hin hcl,
      (placeEdge_fields s isH r c).2.2.1]
    constructor
    · rintro ⟨ho, hc4⟩; exact ⟨ho, by omega⟩
    · rintro ⟨ho, hc3⟩; exact ⟨ho, by omega⟩
  · rw [check_out _ x y (fun hb =>
      hin ((sqInBounds_placeEdge s isH r c x y).mp hb))]
    rw [ssc_out s x y hin]
    simp

theorem sqInBounds_assignSquare (s : GameState) (a b x y : Int) :
    sqInBounds (assignSquare s a b) x y ↔ sqInBounds s x y := by
  have hf := assignSquare_fields s a b
  unfold sqInBounds
  rw [hf.1, hf.2.1]

theorem assignAll_getSq (L : List (Int × Int)) (t : GameState)
    (hlen : t.squares.length = t.rows)
    (hrows : ∀ row ∈ t.squares, row.length = t.cols)
    (hin : ∀ p ∈ L, sqInBounds t p.1 p.2)
    (hdi : L.Pairwise
      (fun p q => ¬(p.1.toNat = q.1.toNat ∧ p.2.toNat = q.2.toNat))) :
    (∀ p ∈ L, getSq (assignAll t L).squares p.1.toNat p.2.toNat =
      some t.currentPlayer) ∧
    (∀ i j : Nat, (∀ p ∈ L, ¬(p.1.toNat = i ∧ p.2.toNat = j)) →
      getSq (assignAll t L).squares i j = getSq t.squares i j) := by
  induction L generalizing t with
  | nil =>
      refine ⟨fun p hp => absurd hp (List.not_mem_nil p), fun i j _ => rfl⟩
  | cons p L ih =>
      rw [List.pairwise_cons] at hdi
      have hpin : sqInBounds t p.1 p.2 := hin p (List.mem_cons_self p L)
      have hplen : p.1.toNat < t.squares.length := by
        obtain ⟨h1, h2, h3, h4⟩ := hpin; omega
      have hprow : p.2.toNat < (t.squares.getD p.1.toNat []).length := by
        rw [getD_row_len _ t.cols _ hrows hplen]
        obtain ⟨h1, h2, h3, h4⟩ := hpin; omega
      have hf := assignSquare_fields t p.1 p.2
      have hsq := assignSquare_squares t p.1 p.2
      have ih' := ih (assignSquare t p.1 p.2)
        (by rw [hsq, length_setM2, hf.1]; exact hlen)
        (by rw [hsq, hf.2.1]; exact rows_setM2 _ _ _ _ _ hrows)
        (fun q hq => (sqInBounds_assignSquare t p.1 p.2 q.1 q.2).mpr
          (hin q (List.mem_cons_of_mem p hq)))
        hdi.2
      rw [assignAll_cons]
      constructor
      · intro q hq
        rcases List.mem_cons.mp hq with hq | hq
        · subst hq
          rw [ih'.2 q.1.toNat q.2.toNat
            (fun q' hq' hh => hdi.1 q' hq' ⟨hh.1.symm, hh.2.symm⟩)]
          rw [hsq, getSq_setM2_self _ _ _ _ hplen hprow]
        · rw [ih'.1 q hq, hf.2.2.2.2.1]
      · intro i j hall
        rw [ih'.2 i j (fun q hq => hall q (List.mem_cons_of_mem p hq))]
        rw [hsq]
        exact getSq_setM2_ne _ _ _ _ _ _ (fun hh =>
          hall p (List.mem_cons_self p L) ⟨hh.1.symm, hh.2.symm⟩)

theorem movesCompleted_sub (s : GameState) (type : String) (r c : Int)
    (p : Int × Int) (hp : p ∈ movesCompleted s type r c) :
    p ∈ squaresToCheck (type == "h") r c ∧
      checkSquareCompletion (placeEdge s (type == "h") r c) p.1 p.2 = true := by
  unfold movesCompleted at hp
  have h := List.mem_filter.mp hp
  exact ⟨h.1, h.2⟩

theorem filter_pair_pairwise (t : GameState) (a b : Int × Int)
    (hab : checkSquareCompletion t a.1 a.2 = true →
      checkSquareCompletion t b.1 b.2 = true →
      ¬(a.1.toNat = b.1.toNat ∧ a.2.toNat = b.2.toNat)) :
    ([a, b].filter (fun p => checkSquareCompletion t p.1 p.2)).Pairwise
      (fun p q => ¬(p.1.toNat = q.1.toNat ∧ p.2.toNat = q.2.toNat)) := by
  by_cases ha : checkSquareCompletion t a.1 a.2 = true
  · by_cases hb : checkSquareCompletion t b.1 b.2 = true
    · simp only [List.filter_cons, ha, hb, if_true, List.filter_nil]
      refine List.Pairwise.cons ?_ ?_
      · intro q hq
        rw [List.mem_singleton] at hq
        subst hq
        exact hab ha hb
      · refine List.Pairwise.cons ?_ List.Pairwise.nil
        intro q hq
        exact absurd hq (List.not_mem_nil q)
    · simp [List.filter_cons, ha, hb]
  · by_cases hb : checkSquareCompletion t b.1 b.2 = true
    · simp [List.filter_cons, ha, hb]
    · simp [List.filter_cons, ha, hb]

theorem movesCompleted_pairwise (s : GameState) (type : String) (r c : Int) :
    (movesCompleted s type r c).Pairwise
      (fun p q => ¬(p.1.toNat = q.1.toNat ∧ p.2.toNat = q.2.toNat)) := by
  unfold movesCompleted
  cases hty : (type == "h") with
  | true =>
      rw [show squaresToCheck true r c = [(r - 1, c), (r, c)] from rfl]
      refine filter_pair_pairwise _ _ _ (fun hca hcb hh => ?_)
      have hba := checkSquareCompletion_bounds _ _ _ hca
      dsimp only at hba hh
      omega
  | false =>
      rw [show squaresToCheck false r c = [(r, c - 1), (r, c)] from rfl]
      refine filter_pair_pairwise _ _ _ (fun hca hcb hh => ?_)
      have hba := checkSquareCompletion_bounds _ _ _ hca
      dsimp only at hba hh
      omega

theorem score_finishMove (s : GameState) (b : Bool) (q : Player) :
    score (finishMove s b) q = score s q := by
  have hf := finishMove_fields s b
  cases q <;> unfold score
  · exact hf.2.2.2.2.2.1
  · exact hf.2.2.2.2.2.2.1

theorem score_placeEdge (s : GameState) (isH : Bool) (r c : Int) (q : Player) :
    score (placeEdge s isH r c) q = score s q := by
  have hf := placeEdge_fields s isH r c
  cases q <;> unfold score
  · exact hf.2.2.2.2.1
  · exact hf.2.2.2.2.2.1

theorem squaresToCheck_length (isH : Bool) (r c : Int) :
    (squaresToCheck isH r c).length = 2 := by
  unfold squaresToCheck; cases isH <;> simp

/-! ## Claim C3: square completion and scoring -/

/-- C3: an accepted move captures exactly the adjacent squares that were
unowned and at three sides (which therefore go to four), assigning each to
the mover and crediting one point per square to the mover's score; no
other square's ownership changes, the opponent's score is untouched, and
at most two squares are captured. -/
theorem handleMove_square_capture (s : GameState) (type : String) (r c : Int)
    (hWF : WF s) (hacc : moveAccepted s type r c) :
    (∀ p ∈ movesCompleted s type r c,
       getSq (handleMove s type r c).squares p.1.toNat p.2.toNat =
         some s.currentPlayer) ∧
    (∀ x y : Int, (x, y) ∈ squaresToCheck (type == "h") r c →
       ((x, y) ∈ movesCompleted s type r c ↔
         getSq s.squares x.toNat y.toNat = none ∧
           getSquareSideCount s x y = 3)) ∧
    (∀ i j : Nat,
       (∀ p ∈ movesCompleted s type r c, ¬(p.1.toNat = i ∧ p.2.toNat = j)) →
       getSq (handleMove s type r c).squares i j = getSq s.squares i j) ∧
    score (handleMove s type r c) s.currentPlayer =
      score s s.currentPlayer + (movesCompleted s type r c).length ∧
    score (handleMove s type r c) (otherPlayer s.currentPlayer) =
      score s (otherPlayer s.currentPlayer) ∧
    (movesCompleted s type r c).length ≤ 2 := by
  have hrw := handleMove_accepted_eq s type r c hacc
  have hcl : (if (type == "h") then getM s.horizontalLines r.toNat c.toNat
      else getM s.verticalLines r.toNat c.toNat) = false := hacc.2.2
  have hpf := placeEdge_fields s (type == "h") r c
  have hWF1 := WF_placeEdge s (type == "h") r c hWF
  have hinb : ∀ p ∈ movesCompleted s type r c,
      sqInBounds (placeEdge s (type == "h") r c) p.1 p.2 := by
    intro p hp
    exact checkSquareCompletion_bounds _ _ _ (movesCompleted_sub s type r c p hp).2
  have hread := assignAll_getSq (movesCompleted s type r c)
    (placeEdge s (type == "h") r c)
    (by rw [hpf.2.2.1, hpf.1]; exact hWF.2.2.2.2.1)
    (by rw [hpf.2.2.1, hpf.2.1]; exact hWF.2.2.2.2.2)
    hinb (movesCompleted_pairwise s type r c)
  have hsq : (handleMove s type r c).squares =
      (assignAll (placeEdge s (type == "h") r c)
        (movesCompleted s type r c)).squares := by
    rw [hrw]
    exact (finishMove_fields _ _).2.2.2.2.1
  refine ⟨?_, ?_, ?_, ?_, ?_, ?_⟩
  · intro p hp
    rw [hsq, hread.1 p hp, hpf.2.2.2.1]
  · intro x y hxy
    unfold movesCompleted
    rw [List.mem_filter]
    constructor
    · intro hh
      exact (check_place_iff s (type == "h") r c x y hWF hxy hcl).mp hh.2
    · intro hh
      exact ⟨hxy, (check_place_iff s (type == "h") r c x y hWF hxy hcl).mpr hh⟩
  · intro i j hall
    rw [hsq, hread.2 i j hall, hpf.2.2.1]
  · rw [hrw, score_finishMove, assignAll_score, hpf.2.2.2.1, if_pos rfl,
      score_placeEdge]
  · rw [hrw, score_finishMove, assignAll_score, hpf.2.2.2.1,
      if_neg (otherPlayer_ne s.currentPlayer), score_placeEdge]
    omega
  · unfold movesCompleted
    calc (List.filter _ (squaresToCheck (type == "h") r c)).length
        ≤ (squaresToCheck (type == "h") r c).length := List.length_filter_le _ _
      _ = 2 := squaresToCheck_length _ r c

/-- Witness for C3: on a 1×1 board with three sides drawn, the fourth
side captures square (0,0) for the mover and scores one point. -/
theorem handleMove_square_capture_witness :
    WF (handleMove (handleMove (handleMove (createInitialState 1 1)
        "h" 0 0) "h" 1 0) "v" 0 0) ∧
    moveAccepted (handleMove (handleMove (handleMove (createInitialState 1 1)
        "h" 0 0) "h" 1 0) "v" 0 0) "v" 0 1 ∧
    score
      (handleMove (handleMove (handleMove (handleMove (createInitialState 1 1)
        "h" 0 0) "h" 1 0) "v" 0 0) "v" 0 1)
      (handleMove (handleMove (handleMove (createInitialState 1 1)
        "h" 0 0) "h" 1 0) "v" 0 0).currentPlayer =
      score (handleMove (handleMove (handleMove (createInitialState 1 1)
        "h" 0 0) "h" 1 0) "v" 0 0)
        (handleMove (handleMove (handleMove (createInitialState 1 1)
          "h" 0 0) "h" 1 0) "v" 0 0).currentPlayer +
        (movesCompleted (handleMove (handleMove (handleMove
          (createInitialState 1 1) "h" 0 0) "h" 1 0) "v" 0 0) "v" 0 1).length :=
  ⟨by decide, by decide,
   (handleMove_square_capture _ "v" 0 1 (by decide) (by decide)).2.2.2.1⟩

theorem handleMove_of_not_accepted (s : GameState) (type : String)
    (r c : Int) (h : ¬ moveAccepted s type r c) :
    handleMove s type r c = s := by
  apply (handleMove_eq_self_iff s type r c).mpr
  unfold moveAccepted at h
  by_cases hover : s.isGameOver = true
  · exact Or.inl hover
  · by_cases hin : edgeInBounds s type r c
    · refine Or.inr (Or.inr ?_)
      cases hcl : edgeClaimed s type r c
      · exact absurd ⟨by cases ho : s.isGameOver; rfl; exact absurd ho hover,
          hin, hcl⟩ h
      · rfl
    · exact Or.inr (Or.inl hin)

/-! ## Claim C1 (statement): rejection condition of the move engine -/

/-- C1: a call to the move engine is rejected — leaves the session
(edges, squares, scores, current player, terminal flag, move counter)
completely unchanged — exactly when the session is already over, the
coordinates are outside the stated bounds for the edge type, or the
targeted edge is already claimed. -/
theorem handleMove_rejected_iff (s : GameState) (type : String) (r c : Int) :
    handleMove s type r c = s ↔
      s.isGameOver = true ∨ ¬ edgeInBounds s type r c ∨
        edgeClaimed s type r c = true :=
  handleMove_eq_self_iff s type r c

/-! ## Claim C4: score bookkeeping invariant -/

theorem getD_irrel {α : Type} (l : List α) (j : Nat) (d1 d2 : α)
    (hj : j < l.length) : l.getD j d1 = l.getD j d2 := by
  rw [List.getD_eq_getElem l d1 hj, List.getD_eq_getElem l d2 hj]

theorem countP_set_of_not {α : Type} (l : List α) (j : Nat) (v : α)
    (f : α → Bool) (hj : j < l.length) (hold : f (l.getD j v) = false) :
    (l.set j v).countP f = l.countP f + (if f v then 1 else 0) := by
  induction l generalizing j with
  | nil => simp at hj
  | cons a t ih =>
      cases j with
      | zero =>
          simp only [List.getD_cons_zero] at hold
          rw [List.set_cons_zero, List.countP_cons, List.countP_cons, hold]
          simp only [Bool.false_eq_true, if_false]
          omega
      | succ j =>
          simp only [List.getD_cons_succ] at hold
          rw [List.set_cons_succ, List.countP_cons, List.countP_cons,
            ih j (by simpa using hj) hold]
          omega

theorem map_sum_set {α : Type} (m : List α) (g : α → Nat) (i : Nat) (v : α)
    (k : Nat) (hi : i < m.length) (hg : g v = g (m.getD i v) + k) :
    ((m.set i v).map g).sum = (m.map g).sum + k := by
  induction m generalizing i with
  | nil => simp at hi
  | cons a t ih =>
      cases i with
      | zero =>
          simp only [List.getD_cons_zero] at hg
          rw [List.set_cons_zero, List.map_cons, List.map_cons,
            List.sum_cons, List.sum_cons, hg]
          omega
      | succ i =>
          simp only [List.getD_cons_succ] at hg
          rw [List.set_cons_succ, List.map_cons, List.map_cons,
            List.sum_cons, List.sum_cons, ih i (by simpa using hi) hg]
          omega

theorem countOwned_setM2 (m : List (List (Option Player))) (i j : Nat)
    (pl q : Player) (hi : i < m.length) (hj : j < (m.getD i []).length)
    (hold : getSq m i j = none) :
    countOwned q (setM2 m i j (some pl)) =
      countOwned q m + (if q = pl then 1 else 0) := by
  unfold countOwned setM2
  have hrow : ((m.getD i []).set j (some pl)).countP (fun o => o == some q) =
      (m.getD i []).countP (fun o => o == some q) +
        (if (some pl == some q) then 1 else 0) := by
    refine countP_set_of_not _ j _ _ hj ?_
    rw [getD_irrel _ j _ none hj]
    unfold getSq at hold
    rw [hold]
    rfl
  rw [map_sum_set m _ i _ (if (some pl == some q) then 1 else 0) hi
    (by rw [getD_irrel m i ((m.getD i []).set j (some pl)) [] hi]; exact hrow)]
  by_cases hq : q = pl
  · subst hq; simp
  · rw [if_neg hq, if_neg (by simp; exact fun hh => hq hh.symm)]

theorem check_unowned (s : GameState) (x y : Int)
    (h : checkSquareCompletion s x y = true) :
    getSq s.squares x.toNat y.toNat = none := by
  unfold checkSquareCompletion at h
  by_cases hb : (x < 0 || (s.rows : Int) ≤ x || y < 0 || (s.cols : Int) ≤ y) = true
  · rw [if_pos hb] at h; exact absurd h (by simp)
  · rw [if_neg hb] at h
    cases ho : getSq s.squares x.toNat y.toNat with
    | none => rfl
    | some q => rw [ho] at h; exact absurd h (by simp)

theorem assignAll_countOwned (L : List (Int × Int)) (t : GameState)
    (hlen : t.squares.length = t.rows)
    (hrows : ∀ row ∈ t.squares, row.length = t.cols)
    (hin : ∀ p ∈ L, sqInBounds t p.1 p.2)
    (hnone : ∀ p ∈ L, getSq t.squares p.1.toNat p.2.toNat = none)
    (hdi : L.Pairwise
      (fun p q => ¬(p.1.toNat = q.1.toNat ∧ p.2.toNat = q.2.toNat)))
    (q : Player) :
    countOwned q (assignAll t L).squares =
      countOwned q t.squares +
        (if q = t.currentPlayer then L.length else 0) := by
  induction L generalizing t with
  | nil => simp [assignAll]
  | cons p L ih =>
      rw [List.pairwise_cons] at hdi
      have hpin : sqInBounds t p.1 p.2 := hin p (List.mem_cons_self p L)
      have hplen : p.1.toNat < t.squares.length := by
        obtain ⟨h1, h2, h3, h4⟩ := hpin; omega
      have hprow : p.2.toNat < (t.squares.getD p.1.toNat []).length := by
        rw [getD_row_len _ t.cols _ hrows hplen]
        obtain ⟨h1, h2, h3, h4⟩ := hpin; omega
      have hf := assignSquare_fields t p.1 p.2
      have hsq := assignSquare_squares t p.1 p.2
      rw [assignAll_cons]
      rw [ih (assignSquare t p.1 p.2)
        (by rw [hsq, length_setM2, hf.1]; exact hlen)
        (by rw [hsq, hf.2.1]; exact rows_setM2 _ _ _ _ _ hrows)
        (fun q' hq' => (sqInBounds_assignSquare t p.1 p.2 q'.1 q'.2).mpr
          (hin q' (List.mem_cons_of_mem p hq')))
        (fun q' hq' => by
          rw [hsq, getSq_setM2_ne _ _ _ _ _ _ (fun hh =>
            hdi.1 q' hq' ⟨hh.1.symm, hh.2.symm⟩)]
          exact hnone q' (List.mem_cons_of_mem p hq'))
        hdi.2]
      rw [hsq, countOwned_setM2 _ _ _ _ _ hplen hprow
        (hnone p (List.mem_cons_self p L)), hf.2.2.2.2.1]
      by_cases hq : q = t.currentPlayer
      · rw [if_pos hq, if_pos hq, if_pos hq]
        simp only [List.length_cons]
        omega
      · rw [if_neg hq, if_neg hq, if_neg hq]

theorem handleMove_countOwned (s : GameState) (type : String) (r c : Int)
    (hWF : WF s) (hacc : moveAccepted s type r c) (q : Player) :
    countOwned q (handleMove s type r c).squares =
      countOwned q s.squares +
        (if q = s.currentPlayer then (movesCompleted s type r c).length
         else 0) := by
  have hrw := handleMove_accepted_eq s type r c hacc
  have hpf := placeEdge_fields s (type == "h") r c
  have hsq : (handleMove s type r c).squares =
      (assignAll (placeEdge s (type == "h") r c)
        (movesCompleted s type r c)).squares := by
    rw [hrw]; exact (finishMove_fields _ _).2.2.2.2.1
  rw [hsq, assignAll_countOwned _ _
    (by rw [hpf.2.2.1, hpf.1]; exact hWF.2.2.2.2.1)
    (by rw [hpf.2.2.1, hpf.2.1]; exact hWF.2.2.2.2.2)
    (fun p hp => checkSquareCompletion_bounds _ _ _
      (movesCompleted_sub s type r c p hp).2)
    (fun p hp => by
      have hu := check_unowned _ _ _ (movesCompleted_sub s type r c p hp).2
      rw [hpf.2.2.1] at hu
      rw [hpf.2.2.1]
      exact hu)
    (movesCompleted_pairwise s type r c) q]
  rw [hpf.2.2.1, hpf.2.2.2.1]

theorem handleMove_score (s : GameState) (type : String) (r c : Int)
    (hacc : moveAccepted s type r c) (q : Player) :
    score (handleMove s type r c) q =
      score s q +
        (if q = s.currentPlayer then (movesCompleted s type r c).length
         else 0) := by
  have hrw := handleMove_accepted_eq s type r c hacc
  have hpf := placeEdge_fields s (type == "h") r c
  rw [hrw, score_finishMove, assignAll_score, hpf.2.2.2.1, score_placeEdge]

theorem countOwned_split (m : List (List (Option Player))) :
    countOwned P1 m + countOwned P2 m = countOwnedTotal m := by
  unfold countOwned countOwnedTotal
  induction m with
  | nil => simp
  | cons row t ih =>
      simp only [List.map_cons, List.sum_cons]
      have hrow : row.countP (fun o => o == some P1) +
          row.countP (fun o => o == some P2) =
          row.countP (fun o => o.isSome) := by
        induction row with
        | nil => simp
        | cons o t' ih' =>
            simp only [List.countP_cons]
            have hsplit : (if (o == some P1) then 1 else 0) +
                (if (o == some P2) then 1 else 0) =
                (if o.isSome then 1 else 0 : Nat) := by
              cases o with
              | none => rfl
              | some q => cases q <;> rfl
            omega
      omega

theorem countOwned_createInitialState (p : Player) (rows cols : Nat) :
    countOwned p (createInitialState rows cols).squares = 0 := by
  unfold countOwned createInitialState
  simp only []
  induction rows with
  | zero => simp
  | succ n ih =>
      rw [List.replicate_succ]
      simp only [List.map_cons, List.sum_cons]
      rw [show (List.map (fun row => List.countP (fun o => o == some p) row)
        (List.replicate n (List.replicate cols (none : Option Player)))).sum = 0
        from ih]
      have : (List.replicate cols (none : Option Player)).countP
          (fun o => o == some p) = 0 := by
        rw [List.countP_eq_zero]
        intro a ha
        rw [List.eq_of_mem_replicate ha]
        simp
      omega

theorem reachable_inv (s : GameState) (h : Reachable s) :
    WF s ∧ s.scoreP1 = countOwned P1 s.squares ∧
      s.scoreP2 = countOwned P2 s.squares := by
  induction h with
  | init rows cols =>
      refine ⟨WF_createInitialState rows cols, ?_, ?_⟩
      · rw [countOwned_createInitialState]; rfl
      · rw [countOwned_createInitialState]; rfl
  | step s type r c hs ih =>
      obtain ⟨hWF, h1, h2⟩ := ih
      by_cases hacc : moveAccepted s type r c
      · refine ⟨WF_handleMove s type r c hWF, ?_, ?_⟩
        · have hsc : (handleMove s type r c).scoreP1 = s.scoreP1 +
              (if P1 = s.currentPlayer
               then (movesCompleted s type r c).length else 0) :=
            handleMove_score s type r c hacc P1
          rw [hsc, handleMove_countOwned s type r c hWF hacc P1, h1]
        · have hsc : (handleMove s type r c).scoreP2 = s.scoreP2 +
              (if P2 = s.currentPlayer
               then (movesCompleted s type r c).length else 0) :=
            handleMove_score s type r c hacc P2
          rw [hsc, handleMove_countOwned s type r c hWF hacc P2, h2]
      · rw [handleMove_of_not_accepted s type r c hacc]
        exact ⟨hWF, h1, h2⟩

/-- C4: in every session reachable from a fresh one through the move
engine, each player's score equals the number of squares that player
owns, and the two scores sum to the number of owned squares. -/
theorem reachable_score_invariant (s : GameState) (h : Reachable s) :
    score s P1 = countOwned P1 s.squares ∧
    score s P2 = countOwned P2 s.squares ∧
    score s P1 + score s P2 = countOwnedTotal s.squares := by
  obtain ⟨hWF, h1, h2⟩ := reachable_inv s h
  refine ⟨h1, h2, ?_⟩
  unfold score
  rw [h1, h2, countOwned_split]

/-- Witness for C4 after a full 1×1 game (the AI captures the square). -/
theorem reachable_score_invariant_witness :
    score (handleMove (handleMove (handleMove (handleMove
      (createInitialState 1 1) "h" 0 0) "h" 1 0) "v" 0 0) "v" 0 1) P1 +
    score (handleMove (handleMove (handleMove (handleMove
      (createInitialState 1 1) "h" 0 0) "h" 1 0) "v" 0 0) "v" 0 1) P2 =
    countOwnedTotal (handleMove (handleMove (handleMove (handleMove
      (createInitialState 1 1) "h" 0 0) "h" 1 0) "v" 0 0) "v" 0 1).squares :=
  (reachable_score_invariant _
    (Reachable.step _ "v" 0 1 (Reachable.step _ "v" 0 0
      (Reachable.step _ "h" 1 0 (Reachable.step _ "h" 0 0
        (Reachable.init 1 1)))))).2.2

/-! ## Claim C5: terminal-state detection -/

/-- C5: once `isGameOver` is set the session is frozen (every further
call returns it unchanged, so the flag can never revert), and each
accepted move starts from a non-terminal session and recomputes the flag
to hold exactly when every square is owned — so the flag first becomes
true precisely on the move that fills the last square. -/
theorem handleMove_terminal (s : GameState) (type : String) (r c : Int) :
    (s.isGameOver = true → handleMove s type r c = s) ∧
    (moveAccepted s type r c →
      s.isGameOver = false ∧
        ((handleMove s type r c).isGameOver = true ↔
          allOwned (handleMove s type r c).squares = true)) := by
  constructor
  · intro h
    unfold handleMove
    rw [if_pos h]
  · intro hacc
    refine ⟨hacc.1, ?_⟩
    have hrw := handleMove_accepted_eq s type r c hacc
    rw [hrw, (finishMove_fields _ _).2.2.2.2.1]
    unfold finishMove
    cases (!(movesCompleted s type r c).isEmpty) <;> simp

/-- Witness for C5: the finished 1×1 game is frozen, and the first move
of a fresh 1×1 game recomputes the flag from square ownership. -/
theorem handleMove_terminal_witness :
    handleMove (handleMove (handleMove (handleMove (handleMove
        (createInitialState 1 1) "h" 0 0) "h" 1 0) "v" 0 0) "v" 0 1)
      "h" 0 0 =
    handleMove (handleMove (handleMove (handleMove
        (createInitialState 1 1) "h" 0 0) "h" 1 0) "v" 0 0) "v" 0 1 ∧
    ((handleMove (createInitialState 1 1) "h" 0 0).isGameOver = true ↔
      allOwned (handleMove (createInitialState 1 1) "h" 0 0).squares = true) :=
  ⟨(handleMove_terminal _ "h" 0 0).1 (by decide),
   ((handleMove_terminal (createInitialState 1 1) "h" 0 0).2 (by decide)).2⟩

/-! ## Claim C9: the thinking guard of the part_000 move engine -/

/-- C9: while the AI-thinking flag is set and it is the human's
(`PLAYER_1`) turn, the guarded move engine of `src/unnamed/part_000`
rejects every submitted move with no state change, legal or not. -/
theorem handleMoveGuarded_thinking (s : GameState) (type : String)
    (r c : Int) (h : s.currentPlayer = P1) :
    handleMoveGuarded s true type r c = s := by
  unfold handleMoveGuarded
  rw [h]
  simp

/-- Witness for C9: the otherwise-legal opening move `("h",0,0)` is
rejected while the guard is up. -/
theorem handleMoveGuarded_thinking_witness :
    handleMoveGuarded (createInitialState 2 2) true "h" 0 0 =
      createInitialState 2 2 :=
  handleMoveGuarded_thinking (createInitialState 2 2) "h" 0 0 rfl

/-! ## Claim C10: unrecognized edge types are treated as vertical -/

/-- C10: any `edgeType` other than `"h"` makes the engine behave exactly
as for a vertical move — there is no separate rejection for an
unrecognized edge type. -/
theorem handleMove_nonh_vertical (s : GameState) (type : String) (r c : Int)
    (h : type ≠ "h") : handleMove s type r c = handleMove s "v" r c := by
  unfold handleMove handleMoveInner
  rw [show (type == "h") = false from beq_eq_false_iff_ne.mpr h,
    show (("v" : String) == "h") = false from rfl]

/-- Witness for C10 at the unrecognized edge type `"x"`. -/
theorem handleMove_nonh_vertical_witness :
    handleMove (createInitialState 2 2) "x" 0 0 =
      handleMove (createInitialState 2 2) "v" 0 0 :=
  handleMove_nonh_vertical (createInitialState 2 2) "x" 0 0 (by decide)

/-! ## The local heuristic (claims C6 and C7) -/

theorem mem_allMoves (s : GameState) (m : Move) (h : m ∈ allMoves s) :
    (m.type = "h" ∧ 0 ≤ m.r ∧ m.r < (s.rows : Int) + 1 ∧ 0 ≤ m.c ∧
      m.c < (s.cols : Int) ∧
      getM s.horizontalLines m.r.toNat m.c.toNat = false) ∨
    (m.type = "v" ∧ 0 ≤ m.r ∧ m.r < (s.rows : Int) ∧ 0 ≤ m.c ∧
      m.c < (s.cols : Int) + 1 ∧
      getM s.verticalLines m.r.toNat m.c.toNat = false) := by
  unfold allMoves at h
  rw [List.mem_append] at h
  rcases h with h | h
  · left
    rw [List.mem_flatMap] at h
    obtain ⟨a, ha, h⟩ := h
    rw [List.mem_filterMap] at h
    obtain ⟨b, hb, h⟩ := h
    rw [List.mem_range] at ha
    rw [List.mem_range] at hb
    by_cases hg : getM s.horizontalLines a b = true
    · rw [if_pos hg] at h; exact absurd h (by simp)
    · rw [if_neg hg] at h
      rw [Option.some_inj] at h
      subst h
      refine ⟨rfl, by dsimp only; omega, by dsimp only; omega,
        by dsimp only; omega, by dsimp only; omega, ?_⟩
      have e1 : ((a : Int)).toNat = a := by omega
      have e2 : ((b : Int)).toNat = b := by omega
      dsimp only
      rw [e1, e2]
      cases hgg : getM s.horizontalLines a b
      · rfl
      · exact absurd hgg hg
  · right
    rw [List.mem_flatMap] at h
    obtain ⟨a, ha, h⟩ := h
    rw [List.mem_filterMap] at h
    obtain ⟨b, hb, h⟩ := h
    rw [List.mem_range] at ha
    rw [List.mem_range] at hb
    by_cases hg : getM s.verticalLines a b = true
    · rw [if_pos hg] at h; exact absurd h (by simp)
    · rw [if_neg hg] at h
      rw [Option.some_inj] at h
      subst h
      refine ⟨rfl, by dsimp only; omega, by dsimp only; omega,
        by dsimp only; omega, by dsimp only; omega, ?_⟩
      have e1 : ((a : Int)).toNat = a := by omega
      have e2 : ((b : Int)).toNat = b := by omega
      dsimp only
      rw [e1, e2]
      cases hgg : getM s.verticalLines a b
      · rfl
      · exact absurd hgg hg

/-- A move drawn from `allMoves` targets an unclaimed edge of its own
type. -/
theorem allMoves_unclaimed (s : GameState) (m : Move) (h : m ∈ allMoves s) :
    (if (m.type == "h") then getM s.horizontalLines m.r.toNat m.c.toNat
     else getM s.verticalLines m.r.toNat m.c.toNat) = false := by
  rcases mem_allMoves s m h with ⟨ht, _, _, _, _, hcl⟩ | ⟨ht, _, _, _, _, hcl⟩
  · rw [ht]; exact hcl
  · rw [ht]
    simp only [show (("v" : String) == "h") = false from rfl,
      Bool.false_eq_true, if_false]
    exact hcl

theorem ssc_nonneg (s : GameState) (x y : Int) (h : sqInBounds s x y) :
    0 ≤ getSquareSideCount s x y := by
  rw [ssc_expand s x y h]
  split_ifs <;> omega

theorem ssc_placeEdge_nonadjacent (s : GameState) (isH : Bool) (r c x y : Int)
    (hr : 0 ≤ r) (hc : 0 ≤ c)
    (hnot : (x, y) ∉ squaresToCheck isH r c) :
    getSquareSideCount (placeEdge s isH r c) x y =
      getSquareSideCount s x y := by
  by_cases hin : sqInBounds s x y
  · rw [ssc_expand _ _ _ ((sqInBounds_placeEdge s isH r c x y).mpr hin),
      ssc_expand _ _ _ hin]
    obtain ⟨hb1, hb2, hb3, hb4⟩ := hin
    cases isH with
    | true =>
        obtain ⟨hl, vl⟩ := placeEdge_true_lines s r c
        rw [hl, vl]
        have hne1 : ¬(x.toNat = r.toNat ∧ y.toNat = c.toNat) := fun hh =>
          hnot (by
            simp only [squaresToCheck, if_true, List.mem_cons,
              List.not_mem_nil, or_false, Prod.mk.injEq]
            right
            omega)
        have hne2 : ¬(x.toNat + 1 = r.toNat ∧ y.toNat = c.toNat) := fun hh =>
          hnot (by
            simp only [squaresToCheck, if_true, List.mem_cons,
              List.not_mem_nil, or_false, Prod.mk.injEq]
            left
            omega)
        rw [getM_setM2_ne _ _ _ _ _ _ hne1, getM_setM2_ne _ _ _ _ _ _ hne2]
    | false =>
        obtain ⟨hl, vl⟩ := placeEdge_false_lines s r c
        rw [hl, vl]
        have hne1 : ¬(x.toNat = r.toNat ∧ y.toNat = c.toNat) := fun hh =>
          hnot (by
            simp only [squaresToCheck, Bool.false_eq_true, if_false,
              List.mem_cons, List.not_mem_nil, or_false, Prod.mk.injEq]
            right
            omega)
        have hne2 : ¬(x.toNat = r.toNat ∧ y.toNat + 1 = c.toNat) := fun hh =>
          hnot (by
            simp only [squaresToCheck, Bool.false_eq_true, if_false,
              List.mem_cons, List.not_mem_nil, or_false, Prod.mk.injEq]
            left
            omega)
        rw [getM_setM2_ne _ _ _ _ _ _ hne1, getM_setM2_ne _ _ _ _ _ _ hne2]
  · rw [ssc_out _ x y (fun hb =>
      hin ((sqInBounds_placeEdge s isH r c x y).mp hb)),
      ssc_out s x y hin]

theorem chooseLocalMove_tier1 (s : GameState) (rand : Nat) (m' : Move)
    (heq : (allMoves s).find? (completesPred s) = some m') :
    chooseLocalMove s rand = some m' := by
  show (match (allMoves s).find? (completesPred s) with
    | some m => some m
    | none =>
        if 0 < ((allMoves s).filter (safePred s)).length then
          some (((allMoves s).filter (safePred s)).getD
            (rand % ((allMoves s).filter (safePred s)).length) ⟨"h", 0, 0⟩)
        else (allMoves s).head?) = some m'
  rw [heq]

theorem chooseLocalMove_tier2 (s : GameState) (rand : Nat)
    (hnone : (allMoves s).find? (completesPred s) = none)
    (hpos : 0 < ((allMoves s).filter (safePred s)).length) :
    chooseLocalMove s rand =
      some (((allMoves s).filter (safePred s)).getD
        (rand % ((allMoves s).filter (safePred s)).length) ⟨"h", 0, 0⟩) := by
  show (match (allMoves s).find? (completesPred s) with
    | some m => some m
    | none =>
        if 0 < ((allMoves s).filter (safePred s)).length then
          some (((allMoves s).filter (safePred s)).getD
            (rand % ((allMoves s).filter (safePred s)).length) ⟨"h", 0, 0⟩)
        else (allMoves s).head?) = _
  rw [hnone]
  exact if_pos hpos

/-- C6: whenever some unclaimed edge would bring an adjacent square from
three claimed sides to four, the local heuristic selects such a
completing edge (tier 1 of the fallback), for every random seed. -/
theorem heuristic_completes (s : GameState) (rand : Nat) (hWF : WF s)
    (hex : ∃ m ∈ allMoves s, ∃ x y : Int, (x, y) ∈ movSquares m ∧
      getSquareSideCount s x y = 3) :
    ∃ m', chooseLocalMove s rand = some m' ∧ m' ∈ allMoves s ∧
      ∃ x y : Int, (x, y) ∈ movSquares m' ∧
        getSquareSideCount s x y = 3 ∧
        getSquareSideCount (placeEdge s (m'.type == "h") m'.r m'.c) x y = 4 := by
  have hsome : ((allMoves s).find? (completesPred s)).isSome = true := by
    rw [List.find?_isSome]
    obtain ⟨m, hm, x, y, hxy, h3⟩ := hex
    refine ⟨m, hm, ?_⟩
    unfold completesPred
    rw [List.any_eq_true]
    refine ⟨(x, y), hxy, ?_⟩
    dsimp only
    rw [h3]
    rfl
  obtain ⟨m', heq⟩ := Option.isSome_iff_exists.mp hsome
  have hm'mem := List.mem_of_find?_eq_some heq
  have hm'p := List.find?_some heq
  unfold completesPred at hm'p
  rw [List.any_eq_true] at hm'p
  obtain ⟨⟨x, y⟩, hp, hp3⟩ := hm'p
  dsimp only at hp3
  have h3 : getSquareSideCount s x y = 3 := beq_iff_eq.mp hp3
  have hin : sqInBounds s x y :=
    sqInBounds_of_ssc_ne s x y (by rw [h3]; omega)
  refine ⟨m', chooseLocalMove_tier1 s rand m' heq, hm'mem, x, y, hp, h3, ?_⟩
  rw [ssc_placeEdge_adjacent s (m'.type == "h") m'.r m'.c x y hWF hp hin
    (allMoves_unclaimed s m' hm'mem), h3]
  omega

/-- Witness for C6: on a 1×1 board with three sides drawn, the heuristic
picks the fourth side of square (0,0). -/
theorem heuristic_completes_witness :
    WF (handleMove (handleMove (handleMove (createInitialState 1 1)
      "h" 0 0) "h" 1 0) "v" 0 0) ∧
    ∃ m', chooseLocalMove (handleMove (handleMove (handleMove
        (createInitialState 1 1) "h" 0 0) "h" 1 0) "v" 0 0) 5 = some m' ∧
      m' ∈ allMoves (handleMove (handleMove (handleMove
        (createInitialState 1 1) "h" 0 0) "h" 1 0) "v" 0 0) ∧
      ∃ x y : Int, (x, y) ∈ movSquares m' ∧
        getSquareSideCount (handleMove (handleMove (handleMove
          (createInitialState 1 1) "h" 0 0) "h" 1 0) "v" 0 0) x y = 3 ∧
        getSquareSideCount (placeEdge (handleMove (handleMove (handleMove
          (createInitialState 1 1) "h" 0 0) "h" 1 0) "v" 0 0)
          (m'.type == "h") m'.r m'.c) x y = 4 :=
  ⟨by decide,
   heuristic_completes _ 5 (by decide)
     ⟨⟨"v", 0, 1⟩, by decide, 0, 0, by decide, by decide⟩⟩

theorem safePred_of_notRaise (s : GameState) (m : Move) (hWF : WF s)
    (hm : m ∈ allMoves s)
    (h3 : ∀ x y : Int, getSquareSideCount s x y ≠ 3)
    (hnr : ∀ x y : Int, (x, y) ∈ movSquares m →
      getSquareSideCount (placeEdge s (m.type == "h") m.r m.c) x y ≠ 3) :
    safePred s m = true := by
  unfold safePred
  rw [List.all_eq_true]
  rintro ⟨x, y⟩ hxy
  dsimp only
  rw [decide_eq_true_eq]
  by_cases hin : sqInBounds s x y
  · have hadj := ssc_placeEdge_adjacent s (m.type == "h") m.r m.c x y hWF
      hxy hin (allMoves_unclaimed s m hm)
    have hne3 := hnr x y hxy
    rw [hadj] at hne3
    have h4 := ssc_le_four (placeEdge s (m.type == "h") m.r m.c) x y
    rw [hadj] at h4
    have hge := ssc_nonneg s x y hin
    have hne3' := h3 x y
    omega
  · rw [ssc_out s x y hin]
    omega

/-- C7: with no square at three sides and some unclaimed edge whose
placement raises no adjacent square to exactly three sides, the move the
local heuristic returns (for any random seed) raises no square to
exactly three sides. -/
theorem heuristic_safety (s : GameState) (rand : Nat) (hWF : WF s)
    (h3 : ∀ x y : Int, getSquareSideCount s x y ≠ 3)
    (hex : ∃ m ∈ allMoves s, ∀ x y : Int, (x, y) ∈ movSquares m →
      getSquareSideCount (placeEdge s (m.type == "h") m.r m.c) x y ≠ 3) :
    ∃ m', chooseLocalMove s rand = some m' ∧
      ∀ x y : Int, getSquareSideCount
        (placeEdge s (m'.type == "h") m'.r m'.c) x y ≠ 3 := by
  obtain ⟨m, hm, hnr⟩ := hex
  have hnone : (allMoves s).find? (completesPred s) = none := by
    rw [List.find?_eq_none]
    intro m'' hm''
    unfold completesPred
    rw [List.any_eq_true]
    rintro ⟨p, hp, hp3⟩
    exact h3 p.1 p.2 (beq_iff_eq.mp hp3)
  have hsafe : safePred s m = true := safePred_of_notRaise s m hWF hm h3 hnr
  have hmemf : m ∈ (allMoves s).filter (safePred s) :=
    List.mem_filter.mpr ⟨hm, hsafe⟩
  have hpos : 0 < ((allMoves s).filter (safePred s)).length :=
    List.length_pos_of_mem hmemf
  have hidx : rand % ((allMoves s).filter (safePred s)).length <
      ((allMoves s).filter (safePred s)).length := Nat.mod_lt rand hpos
  have hget : ((allMoves s).filter (safePred s)).getD
      (rand % ((allMoves s).filter (safePred s)).length) ⟨"h", 0, 0⟩ ∈
      (allMoves s).filter (safePred s) := by
    rw [List.getD_eq_getElem _ _ hidx]
    exact List.getElem_mem hidx
  obtain ⟨hm'all, hm'safe⟩ := List.mem_filter.mp hget
  refine ⟨_, chooseLocalMove_tier2 s rand hnone hpos, ?_⟩
  intro x y
  set m' := ((allMoves s).filter (safePred s)).getD
    (rand % ((allMoves s).filter (safePred s)).length) ⟨"h", 0, 0⟩ with hm'
  by_cases hxy : (x, y) ∈ squaresToCheck (m'.type == "h") m'.r m'.c
  · have hs2 : getSquareSideCount s x y < 2 := by
      unfold safePred at hm'safe
      have := List.all_eq_true.mp hm'safe (x, y) hxy
      dsimp only at this
      exact decide_eq_true_eq.mp this
    by_cases hin : sqInBounds s x y
    · rw [ssc_placeEdge_adjacent s (m'.type == "h") m'.r m'.c x y hWF hxy hin
        (allMoves_unclaimed s m' hm'all)]
      omega
    · rw [ssc_out _ x y (fun hb =>
        hin ((sqInBounds_placeEdge s (m'.type == "h") m'.r m'.c x y).mp hb))]
      omega
  · have h0 : 0 ≤ m'.r ∧ 0 ≤ m'.c := by
      rcases mem_allMoves s m' hm'all with ⟨_, a, _, b, _, _⟩ | ⟨_, a, _, b, _, _⟩
      · exact ⟨a, b⟩
      · exact ⟨a, b⟩
    rw [ssc_placeEdge_nonadjacent s (m'.type == "h") m'.r m'.c x y h0.1 h0.2 hxy]
    exact h3 x y

theorem getM_replicate_false (n k a b : Nat) :
    getM (List.replicate n (List.replicate k false)) a b = false := by
  unfold getM
  by_cases ha : a < n
  · have h1 : (List.replicate n (List.replicate k false)).getD a [] =
        List.replicate k false := by
      rw [List.getD_eq_getElem _ _ (by simpa using ha)]
      simp
    rw [h1]
    by_cases hb : b < k
    · rw [List.getD_eq_getElem _ _ (by simpa using hb)]
      simp
    · exact List.getD_eq_default _ _ (by simpa using hb)
  · have h1 : (List.replicate n (List.replicate k false)).getD a [] = [] :=
      List.getD_eq_default _ _ (by simpa using ha)
    rw [h1]
    rfl

theorem ssc_createInitialState (rows cols : Nat) (x y : Int) :
    getSquareSideCount (createInitialState rows cols) x y = -1 ∨
      getSquareSideCount (createInitialState rows cols) x y = 0 := by
  by_cases hin : sqInBounds (createInitialState rows cols) x y
  · right
    rw [ssc_expand _ x y hin,
      show (createInitialState rows cols).horizontalLines =
        List.replicate (rows + 1) (List.replicate cols false) from rfl,
      show (createInitialState rows cols).verticalLines =
        List.replicate rows (List.replicate (cols + 1) false) from rfl,
      getM_replicate_false, getM_replicate_false, getM_replicate_false,
      getM_replicate_false]
    simp
  · left
    exact ssc_out _ x y hin

/-- Witness for C7 on the empty 2×2 board (every square at zero sides,
the move `("h",0,0)` raises nothing to three). -/
theorem heuristic_safety_witness :
    ∃ m', chooseLocalMove (createInitialState 2 2) 3 = some m' ∧
      ∀ x y : Int, getSquareSideCount
        (placeEdge (createInitialState 2 2) (m'.type == "h") m'.r m'.c)
          x y ≠ 3 :=
  heuristic_safety (createInitialState 2 2) 3 (by decide)
    (fun x y => by
      rcases ssc_createInitialState 2 2 x y with h | h
      · rw [h]; omega
      · rw [h]; omega)
    ⟨⟨"h", 0, 0⟩, by decide, fun x y hxy => by
      have hxy' : (x, y) = ((-1 : Int), (0 : Int)) ∨
          (x, y) = ((0 : Int), (0 : Int)) := by
        simpa [movSquares, squaresToCheck] using hxy
      rcases hxy' with h | h
      · have hx : x = -1 := congrArg Prod.fst h
        have hy : y = 0 := congrArg Prod.snd h
        subst hx
        subst hy
        decide
      · have hx : x = 0 := congrArg Prod.fst h
        have hy : y = 0 := congrArg Prod.snd h
        subst hx
        subst hy
        decide⟩

/-! ## Claim C8: oracle proposals that fail validation -/

theorem validate_matrix_false (lines : List (List Bool)) (r c : Int)
    (h : r < 0 ∨ c < 0 ∨ lines.length ≤ r.toNat ∨
      (lines.getD r.toNat []).length ≤ c.toNat ∨
      getM lines r.toNat c.toNat = true) :
    (if r < 0 then false else
      match lines.get? r.toNat with
      | none => false
      | some row =>
          if c < 0 then false else
            match row.get? c.toNat with
            | none => false
            | some b => !b) = false := by
  by_cases hr0 : r < 0
  · rw [if_pos hr0]
  · rw [if_neg hr0]
    by_cases hrlen : lines.length ≤ r.toNat
    · rw [List.get?_eq_getElem?, List.getElem?_eq_none hrlen]
    · have hrow : lines.get? r.toNat = some (lines.getD r.toNat []) := by
        rw [List.get?_eq_getElem?, List.getElem?_eq_getElem (by omega),
          List.getD_eq_getElem _ _ (by omega)]
      rw [hrow]
      dsimp only
      by_cases hc0 : c < 0
      · rw [if_pos hc0]
      · rw [if_neg hc0]
        by_cases hclen : (lines.getD r.toNat []).length ≤ c.toNat
        · rw [List.get?_eq_getElem?, List.getElem?_eq_none hclen]
        · have hlt2 : c.toNat < (lines.getD r.toNat []).length := by omega
          have hcell : (lines.getD r.toNat []).get? c.toNat =
              some (getM lines r.toNat c.toNat) := by
            unfold getM
            rw [List.get?_eq_getElem?, List.getElem?_eq_getElem hlt2,
              List.getD_eq_getElem (lines.getD r.toNat []) false hlt2]
          rw [hcell]
          dsimp only
          have hcl : getM lines r.toNat c.toNat = true := by
            rcases h with h | h | h | h | h
            · omega
            · omega
            · omega
            · omega
            · exact h
          rw [hcl]
          rfl

theorem oracleValidate_false (s : GameState) (m : Move) (hWF : WF s)
    (h : ¬ edgeInBounds s m.type m.r m.c ∨
      edgeClaimed s m.type m.r m.c = true) :
    oracleValidate s m = false := by
  unfold oracleValidate
  cases hty : (m.type == "h") with
  | true =>
      dsimp only
      simp only [eq_self_iff_true, if_true]
      rcases h with hin | hcl
      · unfold edgeInBounds at hin
        rw [hty] at hin
        simp only [if_true] at hin
        unfold hBoundsOK at hin
        refine validate_matrix_false _ _ _ ?_
        by_cases hrl : s.horizontalLines.length ≤ m.r.toNat
        · exact Or.inr (Or.inr (Or.inl hrl))
        · have hl1 := hWF.1
          have hrowlen : (s.horizontalLines.getD m.r.toNat []).length =
              s.cols := getD_row_len _ _ _ hWF.2.1 (by omega)
          by_cases hr0 : m.r < 0
          · exact Or.inl hr0
          · by_cases hc0 : m.c < 0
            · exact Or.inr (Or.inl hc0)
            · refine Or.inr (Or.inr (Or.inr (Or.inl ?_)))
              rw [hrowlen]
              omega
      · unfold edgeClaimed at hcl
        rw [hty] at hcl
        simp only [if_true] at hcl
        exact validate_matrix_false _ _ _
          (Or.inr (Or.inr (Or.inr (Or.inr hcl))))
  | false =>
      dsimp only
      simp only [Bool.false_eq_true, if_false]
      rcases h with hin | hcl
      · unfold edgeInBounds at hin
        rw [hty] at hin
        simp only [Bool.false_eq_true, if_false] at hin
        unfold vBoundsOK at hin
        refine validate_matrix_false _ _ _ ?_
        by_cases hrl : s.verticalLines.length ≤ m.r.toNat
        · exact Or.inr (Or.inr (Or.inl hrl))
        · have hl1 := hWF.2.2.1
          have hrowlen : (s.verticalLines.getD m.r.toNat []).length =
              s.cols + 1 := getD_row_len _ _ _ hWF.2.2.2.1 (by omega)
          by_cases hr0 : m.r < 0
          · exact Or.inl hr0
          · by_cases hc0 : m.c < 0
            · exact Or.inr (Or.inl hc0)
            · refine Or.inr (Or.inr (Or.inr (Or.inl ?_)))
              rw [hrowlen]
              omega
      · unfold edgeClaimed at hcl
        rw [hty] at hcl
        simp only [Bool.false_eq_true, if_false] at hcl
        exact validate_matrix_false _ _ _
          (Or.inr (Or.inr (Or.inr (Or.inr hcl))))

/-- C8 counterexample: the `part_000` variant of `fetchAiMove` does NOT
treat an invalid oracle proposal as a failed call — it substitutes the
first available move of its own choosing (`availableMoves[0]`). -/
theorem fetchAiMoveP0_substitutes :
    oracleValidate (createInitialState 1 1) ⟨"h", 5, 5⟩ = false ∧
    fetchAiMoveP0 (createInitialState 1 1) ⟨"h", 5, 5⟩ =
      some ⟨"h", 0, 0⟩ := by decide

/-- C8 (amended to the `src/index.js` variant): an oracle proposal whose
target edge is out of range or already claimed is treated as a failed
call (`fetchAiMove` yields no move, mutating nothing — it only reads the
session), and the AI turn falls through to the local heuristic. -/
theorem fetchAiMove_invalid_falls_through (s : GameState) (m : Move)
    (rand : Nat) (hWF : WF s)
    (h : ¬ edgeInBounds s m.type m.r m.c ∨
      edgeClaimed s m.type m.r m.c = true) :
    fetchAiMove s (some m) = none ∧
    triggerAiChoose s (some m) rand = chooseLocalMove s rand := by
  have hv : oracleValidate s m = false := oracleValidate_false s m hWF h
  have h1 : fetchAiMove s (some m) = none := by
    show (if oracleValidate s m = true then some m else none) = none
    rw [hv]
    simp
  refine ⟨h1, ?_⟩
  show (match fetchAiMove s (some m) with
    | some mv => some mv
    | none => chooseLocalMove s rand) = chooseLocalMove s rand
  rw [h1]

/-- Witness for the amended C8 at a concrete out-of-range proposal. -/
theorem fetchAiMove_invalid_falls_through_witness :
    fetchAiMove (createInitialState 1 1) (some ⟨"h", 5, 5⟩) = none ∧
    triggerAiChoose (createInitialState 1 1) (some ⟨"h", 5, 5⟩) 0 =
      chooseLocalMove (createInitialState 1 1) 0 :=
  fetchAiMove_invalid_falls_through (createInitialState 1 1) ⟨"h", 5, 5⟩ 0
    (by decide) (Or.inl (by decide))

end DotsAndSquares
